import Mathlib

/-!
# Native loop synthesis of `Interpreters/JIT/compileFunction.cpp`

`compileFunction(module, f)` emits, through an LLVM `IRBuilder`, one native
function `(counter_arg, columns_arg) -> void` made of three blocks
(`entry`, `loop`, `end`).  The embedding below gives every builder call the
run-time meaning of the instruction it emits, so that the emitted function
becomes an ordinary Lean function on an explicit machine state:

* pointers are a buffer identifier and an element offset
  (`CreateConstInBoundsGEP1_32 (…, p, 1)` advances the offset by one element);
* memory is a total map from pointers to cells; the source never checks
  bounds or null pointers, and neither does the model;
* the row counter is a `w`-bit unsigned word (`w = sizeof(size_t) * 8`),
  a `Nat` reduced modulo `2 ^ w`;
* ill-typed instructions (an `extractvalue` on a scalar, a store of an
  aggregate through a scalar pointer) have no meaning in LLVM: they are
  the fault `Fault.undefined`;
* the loop is run with fuel, and every execution of the loop body is recorded
  as one `Iteration` (the phi values, the arguments handed to the contract,
  the stores performed).
-/

namespace DB

/-! ## Memory -/

/-- A raw pointer: the buffer it points into and an element offset in it. -/
structure Ptr where
  block : Nat
  off : Nat
deriving DecidableEq, Repr

/-- The C++ null pointer constant. -/
def nullptr : Ptr := ⟨0, 0⟩

/-- Meaning of `CreateConstInBoundsGEP1_32(nullptr, p, n)`: `p` advanced by
`n` elements of its pointee type. -/
def Ptr.gep (p : Ptr) (n : Nat) : Ptr := ⟨p.block, p.off + n⟩

/-- Memory: one cell per pointer.  A cell holds a native scalar or, in a
null-indicator buffer, a byte. -/
abbrev Mem := Ptr → Int

/-- Meaning of `CreateStore(v, p)`. -/
def Mem.store (m : Mem) (p : Ptr) (v : Int) : Mem :=
  fun q => if q = p then v else m q

/-- Stores performed in order, first element first. -/
def Mem.storeAll (m : Mem) : List (Ptr × Int) → Mem
  | [] => m
  | s :: rest => Mem.storeAll (Mem.store m s.1 s.2) rest

/-! ## Types and values (declarations the source includes, `DataTypes/Native.h`,
`Functions/IFunctionImpl.h`, `Columns/IColumn.h`, `compileFunction.h`) -/

/-- Modelled from the spec: the column type system the core "merely queries".
A type is a native element type or `Nullable` of a nested type. -/
inductive DataType where
  | plain (id : Nat)
  | nullable (nested : DataType)
deriving DecidableEq, Repr

/-- Modelled from the spec: `type->isNullable()`. -/
def DataType.isNullable : DataType → Bool
  | .nullable _ => true
  | .plain _ => false

/-- Modelled from the spec: `removeNullable(type)` strips one `Nullable`. -/
def removeNullable : DataType → DataType
  | .nullable nested => nested
  | .plain id => .plain id

/-- The LLVM types the function's pointers point to: `b.getInt8Ty()` and
`toNativeType(b, t)`; `toNativeType` itself is not part of the source file and
is kept symbolic. -/
inductive IRType where
  | int8
  | toNativeType (t : DataType)
deriving DecidableEq, Repr

/-- An `llvm::Value *` of pointer type: the address it evaluates to and its
pointee type. -/
structure PtrValue where
  addr : Ptr
  pointee : IRType
deriving DecidableEq, Repr

/-- Meaning of `CreateConstInBoundsGEP1_32(nullptr, p, n)` on a typed pointer. -/
def PtrValue.gep (p : PtrValue) (n : Nat) : PtrValue := ⟨p.addr.gep n, p.pointee⟩

/-- Modelled from the spec: the Value of one row handed to and returned by the
Expression Contract, "either a bare scalar … or a composite of
(scalar, boolean-is-null)". -/
inductive Value where
  | scalar (v : Int)
  | composite (v : Int) (is_null : Bool)
deriving DecidableEq, Repr

/-- Whether a Value is the `{scalar, i1}` aggregate. -/
def Value.isComposite : Value → Bool
  | .composite _ _ => true
  | .scalar _ => false

/-- The scalar carried by a Value (field 0 of the aggregate, or the bare scalar). -/
def Value.payload : Value → Int
  | .composite v _ => v
  | .scalar v => v

/-- The is-null flag carried by a Value (a bare scalar carries none). -/
def Value.isNull : Value → Bool
  | .composite _ b => b
  | .scalar _ => false

/-- Modelled from the spec: the Expression Contract
`{ argumentTypes, resultType, name, compile(builder, argumentValues) -> resultValue }`.
`compile` is the per-row operation of the instructions the contract emits. -/
structure IFunctionBaseImpl where
  getName : String
  getArgumentTypes : List DataType
  getResultType : DataType
  compile : List Value → Value

/-- Modelled from the spec: `ColumnData` of `compileFunction.h`,
`{ data, null }`, both raw pointers, `null` being the null pointer when absent.
It is also the two-pointer struct of the generated function's array argument. -/
structure ColumnData where
  data : Ptr := nullptr
  null : Ptr := nullptr
deriving DecidableEq, Repr

/-- Modelled from the spec: a column handle exposing "is this constant",
"is this nullable", "get nested column", "get null-indicator buffer" and
"get raw contiguous buffer" (`raw` is what `getRawData().data` returns for the
column itself). -/
inductive IColumn where
  | plain (raw : Ptr)
  | const (raw : Ptr) (data : IColumn)
  | nullable (raw : Ptr) (nested : IColumn) (null_map : IColumn)
deriving DecidableEq, Repr

/-- Modelled from the spec: `column.getRawData().data`. -/
def IColumn.getRawData : IColumn → Ptr
  | .plain raw => raw
  | .const raw _ => raw
  | .nullable raw _ _ => raw

/-- Modelled from the spec: `isColumnConst(column)`. -/
def isColumnConst : IColumn → Bool
  | .const _ _ => true
  | _ => false

/-- Modelled from the spec: `typeid_cast<const ColumnNullable *>(column)`,
giving the nullable column's `(getNullMapColumn(), getNestedColumn())`. -/
def typeid_cast_ColumnNullable : IColumn → Option (IColumn × IColumn)
  | .nullable _ nested null_map => some (null_map, nested)
  | _ => none

/-- The error codes the file throws. -/
inductive ErrorCodes where
  | LOGICAL_ERROR
deriving DecidableEq, Repr

/-- An `Exception(code, message)`. -/
structure Exception where
  code : ErrorCodes
  message : String
deriving DecidableEq, Repr

/-! ## `getColumnData` (lines 33-50) -/

/-- Source `getColumnData`: throws on a constant column, otherwise fills
`null` from the null map of a nullable column and `data` from the (unwrapped)
column. -/
def getColumnData (column : IColumn) : Except Exception ColumnData :=
  let result : ColumnData := {}
  let is_const := isColumnConst column
  if is_const then
    .error ⟨.LOGICAL_ERROR, "Input columns should not be constant"⟩
  else
    match typeid_cast_ColumnNullable column with
    | some (null_map, nested) =>
      let result := { result with null := null_map.getRawData }
      let column := nested
      .ok { result with data := column.getRawData }
    | none =>
      .ok { result with data := column.getRawData }

/-! ## The generated function (lines 52-142) -/

/-- Source `ColumnDataPlaceholder`: `data_init`/`null_init` are the pointers of
the first row, `data`/`null` the loop-carried phi nodes (current row).  An
absent `llvm::Value *` (`nullptr` in the generator) is `none`. -/
structure ColumnDataPlaceholder where
  data_init : PtrValue
  null_init : Option PtrValue
  data : PtrValue
  null : Option PtrValue
deriving DecidableEq, Repr

/-- What stops an execution of the model short of the `end` block. -/
inductive Fault where
  | outOfFuel
  | undefined
deriving DecidableEq, Repr

/-- The state at the loop header: the phi nodes and the memory. -/
structure LoopState where
  counter_phi : Nat
  columns : List ColumnDataPlaceholder
  mem : Mem

/-- One execution of the loop body: the phi values and the memory it started
from, the Values passed to `f.compile`, the Value it returned and the stores
performed, in order. -/
structure Iteration where
  counter_phi : Nat
  columns : List ColumnDataPlaceholder
  mem : Mem
  arguments : List Value
  result : Value
  stores : List (Ptr × Int)

/-- Line 73: the declared type of slot `i`,
`i == arg_types.size() ? f.getResultType() : arg_types[i]`. -/
def compileFunction.slotType (f : IFunctionBaseImpl) (i : Nat) : DataType :=
  let arg_types := f.getArgumentTypes
  if i = arg_types.length then f.getResultType else arg_types.getD i f.getResultType

/-- Lines 70-77 and the `entry` edge of the phi nodes (lines 85-94): one slot
per argument and one for the result, read from `columns_arg[i]`; the phi nodes
start at the `_init` pointers. -/
def compileFunction.entry (f : IFunctionBaseImpl) (columns_arg : Nat → ColumnData) :
    List ColumnDataPlaceholder :=
  let arg_types := f.getArgumentTypes
  (List.range (arg_types.length + 1)).map fun i =>
    let type := compileFunction.slotType f i
    let data := columns_arg i
    let data_init : PtrValue := ⟨data.data, .toNativeType (removeNullable type)⟩
    let null_init : Option PtrValue := if type.isNullable then some ⟨data.null, .int8⟩ else none
    { data_init := data_init, null_init := null_init, data := data_init, null := null_init }

/-- Lines 99-115: the Values of the current row, one per argument slot. -/
def compileFunction.arguments (arg_count : Nat) (columns : List ColumnDataPlaceholder)
    (mem : Mem) : List Value :=
  (columns.take arg_count).map fun column =>
    let value := mem column.data.addr
    match column.null with
    | none => Value.scalar value
    | some null =>
      let is_null := decide (mem null.addr ≠ 0)
      Value.composite value is_null

/-- Lines 118-126: the stores of the result, in emission order.  The branch is
chosen by the result slot's null pointer alone; `CreateExtractValue` on a bare
scalar and the store of an aggregate through the scalar pointer are ill-typed. -/
def compileFunction.resultStores (back : ColumnDataPlaceholder) (result : Value) :
    Except Fault (List (Ptr × Int)) :=
  match back.null with
  | some null =>
    match result with
    | .composite v is_null => .ok [(back.data.addr, v), (null.addr, if is_null then 1 else 0)]
    | .scalar _ => .error .undefined
  | none =>
    match result with
    | .scalar v => .ok [(back.data.addr, v)]
    | .composite _ _ => .error .undefined

/-- Lines 129-134: the value every phi node receives on the back edge. -/
def compileFunction.advance (col : ColumnDataPlaceholder) : ColumnDataPlaceholder :=
  { col with data := col.data.gep 1, null := col.null.map fun p => p.gep 1 }

/-- Line 136: `CreateSub(counter_phi, 1)` on a `w`-bit word. -/
def compileFunction.decrement (w : Nat) (counter_phi : Nat) : Nat :=
  (counter_phi + 2 ^ w - 1) % 2 ^ w

/-- Lines 96-136: one execution of the loop body from the header state `st`;
returns its record and the phi values of the back edge. -/
def compileFunction.loopBody (w : Nat) (f : IFunctionBaseImpl) (st : LoopState) :
    Except Fault (Iteration × LoopState) :=
  let arguments := compileFunction.arguments f.getArgumentTypes.length st.columns st.mem
  let result := f.compile arguments
  match st.columns.getLast? with
  | none => .error .undefined
  | some back =>
    match compileFunction.resultStores back result with
    | .error e => .error e
    | .ok stores =>
      .ok (⟨st.counter_phi, st.columns, st.mem, arguments, result, stores⟩,
           ⟨compileFunction.decrement w st.counter_phi,
            st.columns.map compileFunction.advance,
            Mem.storeAll st.mem stores⟩)

/-- The `loop` block with its conditional branch (line 139): after the body,
branch back when the counter of the iteration just executed differs from 1,
else fall through to `end`.  Returns the executions of the body in order and
the memory at `end`. -/
def compileFunction.loop (w : Nat) (f : IFunctionBaseImpl) :
    Nat → LoopState → Except Fault (List Iteration × Mem)
  | 0, _ => .error .outOfFuel
  | fuel + 1, st =>
    match compileFunction.loopBody w f st with
    | .error e => .error e
    | .ok (it, next) =>
      if st.counter_phi ≠ 1 then
        match compileFunction.loop w f fuel next with
        | .error e => .error e
        | .ok (its, mem) => .ok (it :: its, mem)
      else
        .ok ([it], next.mem)

/-- The function emitted by `compileFunction(module, f)`, run on
`(counter_arg, columns_arg)` and the memory `mem` with `fuel` loop
iterations allowed. -/
def compileFunction.run (w : Nat) (f : IFunctionBaseImpl) (fuel : Nat) (counter_arg : Nat)
    (columns_arg : Nat → ColumnData) (mem : Mem) : Except Fault (List Iteration × Mem) :=
  compileFunction.loop w f fuel
    ⟨counter_arg % 2 ^ w, compileFunction.entry f columns_arg, mem⟩

/-! ## Well-formed contracts and the closed form of the loop -/

/-- The Expression Contract honours its declared types: on argument Values
shaped like the argument types it returns a Value shaped like the result type
(a composite exactly for a nullable type). -/
def IFunctionBaseImpl.WellShaped (f : IFunctionBaseImpl) : Prop :=
  ∀ args : List Value,
    args.map Value.isComposite = f.getArgumentTypes.map DataType.isNullable →
    (f.compile args).isComposite = f.getResultType.isNullable

/-- The slots carry a null pointer exactly where the declared types, arguments
first and result last, are nullable. -/
def compileFunction.SlotsMatch (f : IFunctionBaseImpl) (columns : List ColumnDataPlaceholder) :
    Prop :=
  columns.map (fun c => c.null.isSome)
    = (f.getArgumentTypes ++ [f.getResultType]).map DataType.isNullable

/-- The stores of a well-typed result, see `compileFunction.resultStores`. -/
def compileFunction.rowStores (back : ColumnDataPlaceholder) (result : Value) :
    List (Ptr × Int) :=
  match back.null with
  | some null => [(back.data.addr, result.payload), (null.addr, if result.isNull then 1 else 0)]
  | none => [(back.data.addr, result.payload)]

/-- The record of the loop body run from `st`, for a well-typed result. -/
def compileFunction.record (f : IFunctionBaseImpl) (st : LoopState) : Iteration :=
  let arguments := compileFunction.arguments f.getArgumentTypes.length st.columns st.mem
  let result := f.compile arguments
  let stores := match st.columns.getLast? with
    | some back => compileFunction.rowStores back result
    | none => []
  ⟨st.counter_phi, st.columns, st.mem, arguments, result, stores⟩

/-- The header state reached over the back edge from `st`. -/
def compileFunction.next (w : Nat) (f : IFunctionBaseImpl) (st : LoopState) : LoopState :=
  ⟨compileFunction.decrement w st.counter_phi,
   st.columns.map compileFunction.advance,
   Mem.storeAll st.mem (compileFunction.record f st).stores⟩

/-- The header state at the start of the `k`-th execution of the body. -/
def compileFunction.headerAt (w : Nat) (f : IFunctionBaseImpl) (st : LoopState) :
    Nat → LoopState
  | 0 => st
  | k + 1 => compileFunction.next w f (compileFunction.headerAt w f st k)

/-- A slot with its phi nodes `k` rows past the first row. -/
def compileFunction.atRow (k : Nat) (col : ColumnDataPlaceholder) : ColumnDataPlaceholder :=
  { col with data := col.data.gep k, null := col.null.map fun p => p.gep k }

/-- The slot built by lines 73-76 from a declared type and a descriptor pair. -/
def compileFunction.slot (t : DataType) (d : ColumnData) : ColumnDataPlaceholder :=
  { data_init := ⟨d.data, .toNativeType (removeNullable t)⟩,
    null_init := if t.isNullable then some ⟨d.null, .int8⟩ else none,
    data := ⟨d.data, .toNativeType (removeNullable t)⟩,
    null := if t.isNullable then some ⟨d.null, .int8⟩ else none }

/-- The Value of row `k` of a column of declared type `t` with descriptor `d`,
read from the memory `m`. -/
def compileFunction.rowValue (t : DataType) (d : ColumnData) (k : Nat) (m : Mem) : Value :=
  if t.isNullable then Value.composite (m (d.data.gep k)) (decide (m (d.null.gep k) ≠ 0))
  else Value.scalar (m (d.data.gep k))

/-- The argument Values of row `k`, read from the memory `m`. -/
def compileFunction.rowArguments (f : IFunctionBaseImpl) (columns_arg : Nat → ColumnData)
    (k : Nat) (m : Mem) : List Value :=
  (List.range f.getArgumentTypes.length).map fun i =>
    compileFunction.rowValue (compileFunction.slotType f i) (columns_arg i) k m

/-- The cells of row `k` of the result slot: its data cell and, for a nullable
result type, its null byte. -/
def compileFunction.resultCells (f : IFunctionBaseImpl) (columns_arg : Nat → ColumnData)
    (k : Nat) : List Ptr :=
  let d := columns_arg f.getArgumentTypes.length
  if f.getResultType.isNullable then [d.data.gep k, d.null.gep k] else [d.data.gep k]

/-- The cells of row `k` of the argument slots: every data cell and, for a
nullable argument type, its null byte. -/
def compileFunction.argumentCells (f : IFunctionBaseImpl) (columns_arg : Nat → ColumnData)
    (k : Nat) : List Ptr :=
  (List.range f.getArgumentTypes.length).flatMap fun i =>
    let d := columns_arg i
    if (compileFunction.slotType f i).isNullable then [d.data.gep k, d.null.gep k]
    else [d.data.gep k]

/-- The header state the `entry` block branches to. -/
def compileFunction.start (w : Nat) (f : IFunctionBaseImpl) (counter_arg : Nat)
    (columns_arg : Nat → ColumnData) (mem : Mem) : LoopState :=
  ⟨counter_arg % 2 ^ w, compileFunction.entry f columns_arg, mem⟩

/-! ## Contracts and inputs of the scenarios of the specification -/

/-- Modelled from the spec: the contract "integer addition" over two
non-nullable integer columns with a non-nullable integer result. -/
def plusContract : IFunctionBaseImpl :=
  { getName := "plus",
    getArgumentTypes := [.plain 0, .plain 0],
    getResultType := .plain 0,
    compile := fun args =>
      match args with
      | [a, b] => .scalar (a.payload + b.payload)
      | _ => .scalar 0 }

/-- Modelled from the spec: the unary contract "add 1" over a non-nullable
integer column. -/
def addOneContract : IFunctionBaseImpl :=
  { getName := "addOne",
    getArgumentTypes := [.plain 0],
    getResultType := .plain 0,
    compile := fun args =>
      match args with
      | [a] => .scalar (a.payload + 1)
      | _ => .scalar 0 }

/-- Modelled from the spec: the contract "identity" over one nullable column
of nested type `t`, with a nullable result. -/
def identityContract (t : DataType) : IFunctionBaseImpl :=
  { getName := "identity",
    getArgumentTypes := [.nullable t],
    getResultType := .nullable t,
    compile := fun args =>
      match args with
      | [a] => a
      | _ => .composite 0 false }

/-- Descriptors of the scenarios: slot `i` has its data buffer in block
`2 * i + 1` and its null buffer in block `2 * i + 2`, both from offset 0. -/
def scenarioColumns : Nat → ColumnData :=
  fun i => { data := ⟨2 * i + 1, 0⟩, null := ⟨2 * i + 2, 0⟩ }

/-- Memory of the addition scenario: `[1, 2, 3]` in the data buffer of slot 0,
`[10, 20, 30]` in that of slot 1, zero elsewhere. -/
def plusMem : Mem :=
  fun p =>
    if p.block = 1 then [1, 2, 3].getD p.off 0
    else if p.block = 3 then [10, 20, 30].getD p.off 0
    else 0

/-- Memory of the identity scenario: data `[5, 0, 7]` and null bytes
`[0, 1, 0]` in the buffers of slot 0; the result buffers hold 99 everywhere. -/
def identityMem : Mem :=
  fun p =>
    if p.block = 1 then [5, 0, 7].getD p.off 0
    else if p.block = 2 then [0, 1, 0].getD p.off 0
    else 99

/-! ## The generator's side: emitted result stores and profile events -/

/-- The value operand of a `CreateStore` that lines 120-125 emit, in terms of
the `result` returned by `f.compile`. -/
inductive ResultOperand where
  /-- The `result` itself (line 125). -/
  | result
  /-- Field 0 of it, `CreateExtractValue(result, {0})` (line 120). -/
  | extractValue0
  /-- The byte `CreateSelect(CreateExtractValue(result, {1}), getInt8(1), getInt8(0))`
  (line 121). -/
  | selectExtractValue1
deriving DecidableEq, Repr

/-- A `CreateStore(operand, ptr)` instruction appended to the loop block. -/
structure StoreInstr where
  operand : ResultOperand
  ptr : PtrValue
deriving DecidableEq, Repr

/-- Lines 118-126 as the generator executes them: the branch is taken on the
result slot's null pointer, the stores are appended; `result` is not
inspected and nothing is thrown. -/
def compileFunction.emitResultStores (back : ColumnDataPlaceholder) : List StoreInstr :=
  match back.null with
  | some null => [⟨.extractValue0, back.data⟩, ⟨.selectExtractValue1, null⟩]
  | none => [⟨.result, back.data⟩]

/-- Run-time meaning of an emitted operand when `result` evaluates to the given
Value; an `extractvalue` of a bare scalar and an aggregate stored through the
scalar pointer are ill-typed. -/
def ResultOperand.eval : ResultOperand → Value → Except Fault Int
  | .result, .scalar v => .ok v
  | .result, .composite _ _ => .error .undefined
  | .extractValue0, .composite v _ => .ok v
  | .extractValue0, .scalar _ => .error .undefined
  | .selectExtractValue1, .composite _ is_null => .ok (if is_null then 1 else 0)
  | .selectExtractValue1, .scalar _ => .error .undefined

/-- Run-time meaning of a list of emitted stores: the cells and what is stored
to them, in order. -/
def compileFunction.execResultStores (result : Value) :
    List StoreInstr → Except Fault (List (Ptr × Int))
  | [] => .ok []
  | s :: rest =>
    match s.operand.eval result with
    | .error e => .error e
    | .ok v =>
      match compileFunction.execResultStores result rest with
      | .error e => .error e
      | .ok stores => .ok ((s.ptr.addr, v) :: stores)

/-- A contract that breaks its declaration: the result type is nullable, the
Value returned is a bare scalar. -/
def bareScalarContract : IFunctionBaseImpl :=
  { getName := "bareScalar",
    getArgumentTypes := [.plain 0],
    getResultType := .nullable (.plain 0),
    compile := fun _ => .scalar 7 }

/-- A contract that breaks its declaration the other way: the result type is
not nullable, the Value returned is a composite. -/
def strayCompositeContract : IFunctionBaseImpl :=
  { getName := "strayComposite",
    getArgumentTypes := [.plain 0],
    getResultType := .plain 0,
    compile := fun _ => .composite 7 false }

/-- The profile events the file increments. -/
inductive ProfileEvents.Event where
  | CompileFunction
  | CompileExpressionsMicroseconds
  | CompileExpressionsBytes
deriving DecidableEq, Repr

/-- Modelled from the spec: the profiling counters ("count invocations and
record elapsed time / bytes compiled"), one per event. -/
structure ProfileEvents where
  CompileFunction : Nat
  CompileExpressionsMicroseconds : Nat
  CompileExpressionsBytes : Nat
deriving DecidableEq, Repr

/-- Modelled from the spec: `ProfileEvents::increment(event, amount)`. -/
def ProfileEvents.increment (events : ProfileEvents) (event : ProfileEvents.Event)
    (amount : Nat) : ProfileEvents :=
  match event with
  | .CompileFunction => { events with CompileFunction := events.CompileFunction + amount }
  | .CompileExpressionsMicroseconds =>
    { events with
      CompileExpressionsMicroseconds := events.CompileExpressionsMicroseconds + amount }
  | .CompileExpressionsBytes =>
    { events with CompileExpressionsBytes := events.CompileExpressionsBytes + amount }

/-- An `llvm::Module` under construction: the names of the functions created
in it. -/
structure Module where
  functions : List String
deriving DecidableEq, Repr

/-- The static `compileFunction(llvm::Module & module, f)` as a step of the
generator: line 54 counts one compiled function, lines 56-141 create the
function under the contract's name (what that function does when run is
`compileFunction.run`). -/
def compileFunction.intoModule (f : IFunctionBaseImpl) (module : Module)
    (events : ProfileEvents) : Module × ProfileEvents :=
  let events := events.increment .CompileFunction 1
  ({ functions := module.functions ++ [f.getName] }, events)

/-- Modelled from the spec: `CHJIT::CompiledModuleInfo`, "size: bytes of emitted
code". -/
structure CompiledModuleInfo where
  size : Nat
deriving DecidableEq, Repr

/-- Modelled from the spec: the JIT backend, a black box behind
`compileModule(moduleBuilderCallback) -> { size, … }`; what the model keeps of
it is how often it runs the callback on the module it builds and the size it
reports for a finished module. -/
structure CHJIT where
  callbackCalls : Nat
  compiledSize : Module → Nat

/-- Modelled from the spec: `jit.compileModule(callback)` runs the callback on a
fresh module and reports the size of the compiled code. -/
def CHJIT.compileModule (jit : CHJIT)
    (callback : Module × ProfileEvents → Module × ProfileEvents) (events : ProfileEvents) :
    CompiledModuleInfo × ProfileEvents :=
  let built := Nat.iterate callback jit.callbackCalls (⟨[]⟩, events)
  (⟨jit.compiledSize built.1⟩, built.2)

/-- Source `compileFunction(CHJIT & jit, f)` (lines 144-158);
`elapsedMicroseconds` is what the stopwatch reads at line 153. -/
def compileFunction (jit : CHJIT) (f : IFunctionBaseImpl) (elapsedMicroseconds : Nat)
    (events : ProfileEvents) : CompiledModuleInfo × ProfileEvents :=
  let compiled := jit.compileModule
    (fun state => compileFunction.intoModule f state.1 state.2) events
  let compiled_module_info := compiled.1
  let events := compiled.2
  let events := events.increment .CompileExpressionsMicroseconds elapsedMicroseconds
  let events := events.increment .CompileExpressionsBytes compiled_module_info.size
  let events := events.increment .CompileFunction 1
  (compiled_module_info, events)

/-! ## `Storages/FileLog/ReadBufferFromFileLog.cpp`

The class reads new lines of the files of a `StorageFileLog` in batches.  The
embedding passes the object explicitly; a member function returns what it
returns (or the failure that ended it) together with the object as it is left,
since the state written before an exception is thrown stays written.
`size_t` is a `w`-bit word.  The declarations of the header and of
`StorageFileLog` are not part of the source file; the members the code uses
are kept with their names. -/

/-- What ends a member function other than a return: the exception of lines
121 and 134, the `std::out_of_range` of `map::at` (lines 110 and 114), or
behaviour the language leaves undefined (the division by zero of line 103, an
index past the end of `file_names`, an iterator past `records.end()`). -/
inductive FileLogFailure where
  | CANNOT_READ_FROM_ISTREAM (message : String)
  | out_of_range
  | undefined
deriving DecidableEq, Repr

/-- The states of a file in `StorageFileLog::FileStatus`; the code reads and
writes `NO_CHANGE` only. -/
inductive FileStatus where
  | OPEN
  | NO_CHANGE
  | UPDATED
  | REMOVED
deriving DecidableEq, Repr

/-- What the code uses of a `std::ifstream` whose states are the values of `ρ`:
`static_cast<UInt64>(reader.tellg())`, `reader.good()` and
`std::getline(reader, data)`, which yields the line and the stream after it. -/
structure StreamOps (ρ : Type) where
  tellg : ρ → Nat
  good : ρ → Bool
  getline : ρ → String × ρ

/-- The `file_ctx` of a file: its status and its reader. -/
structure FileContext (ρ : Type) where
  status : FileStatus
  reader : ρ

/-- The `file_meta` of a file, as far as the code uses it. -/
structure FileMeta where
  last_writen_position : Nat
  last_open_end : Nat
deriving DecidableEq, Repr

/-- The `storage.getFileInfos()`: the file names and the three maps; a map is
a partial function, `at` fails where it is undefined. -/
structure FileInfos (ρ : Type) where
  file_names : List String
  context_by_name : String → Option (FileContext ρ)
  inode_by_name : String → Option Nat
  meta_by_inode : Nat → Option FileMeta

/-- Writes through the reference `file_ctx` obtained at line 110. -/
def FileInfos.setContext {ρ : Type} (infos : FileInfos ρ) (file_name : String)
    (file_ctx : FileContext ρ) : FileInfos ρ :=
  { infos with
    context_by_name := fun n => if n = file_name then some file_ctx else infos.context_by_name n }

/-- Writes through the reference `file_meta` obtained at line 114. -/
def FileInfos.setMeta {ρ : Type} (infos : FileInfos ρ) (inode : Nat) (file_meta : FileMeta) :
    FileInfos ρ :=
  { infos with
    meta_by_inode := fun n => if n = inode then some file_meta else infos.meta_by_inode n }

/-- A polled record: one line, the file it comes from and the offset it
starts at. -/
structure Record where
  file_name : String
  offset : Nat
  data : String
deriving DecidableEq, Repr

/-- The values of the member `buffer_status`. -/
inductive BufferStatus where
  | INIT
  | NO_RECORD_RETURNED
  | POLLED_OK
deriving DecidableEq, Repr

/-- The object.  The iterator `current` is an index into `records`,
`records.end()` being `records.length`; `working_buffer` is what
`BufferBase::set(pos, size, 0)` exposes (`none` after `set(nullptr, 0, 0)`). -/
structure ReadBufferFromFileLog (ρ : Type) where
  file_infos : FileInfos ρ
  batch_size : Nat
  poll_timeout : Nat
  stream_number : Nat
  max_streams_number : Nat
  buffer_status : BufferStatus
  stream_out : Bool
  records : List Record
  current : Nat
  allowed : Bool
  current_file : String
  current_offset : Nat
  working_buffer : Option String

/-- Source `cleanUnprocessed` (lines 38-43). -/
def ReadBufferFromFileLog.cleanUnprocessed {ρ : Type} (self : ReadBufferFromFileLog ρ) :
    ReadBufferFromFileLog ρ :=
  { self with records := [], current := 0, working_buffer := none }

/-- The body of the constructor (lines 34-35), run on the object its member
initialisers made. -/
def ReadBufferFromFileLog.construct {ρ : Type} (self : ReadBufferFromFileLog ρ) :
    ReadBufferFromFileLog ρ :=
  { self.cleanUnprocessed with allowed := false }

/-- The header's `hasMorePolledRecords()`: `current != records.end()`. -/
def ReadBufferFromFileLog.hasMorePolledRecords {ρ : Type} (self : ReadBufferFromFileLog ρ) :
    Bool :=
  decide (self.current ≠ self.records.length)

/-- Lines 103-105: the indices `[start, end)` of the files a stream reads, in
`w`-bit unsigned arithmetic. -/
def ReadBufferFromFileLog.streamRange (w file_count stream_number max_streams_number : Nat) :
    Nat × Nat :=
  let files_per_stream := file_count / max_streams_number
  let start := (stream_number * files_per_stream) % 2 ^ w
  let end_ :=
    if stream_number = (max_streams_number + 2 ^ w - 1) % 2 ^ w then file_count
    else ((stream_number + 1) % 2 ^ w * files_per_stream) % 2 ^ w
  (start, end_)

/-- The variables the loops of `readNewRecords` update. -/
structure ReadVars (ρ : Type) where
  file_infos : FileInfos ρ
  stream_out : Bool
  new_records : List Record
  read_records_size : Nat

/-- Lines 117-129: the `while` loop over the lines of one file.  The first
argument bounds the iterations; it is `need_records_size - read_records_size`,
which the guard bounds them by. -/
def ReadBufferFromFileLog.readNewRecords.whileLoop {ρ : Type} (ops : StreamOps ρ)
    (file_name : String) (need_records_size last_open_end : Nat) :
    Nat → ρ → List Record → Nat → Option FileLogFailure × ρ × List Record × Nat
  | 0, reader, new_records, read_records_size =>
    (none, reader, new_records, read_records_size)
  | fuel + 1, reader, new_records, read_records_size =>
    if read_records_size < need_records_size ∧ ops.tellg reader < last_open_end then
      if !ops.good reader then
        (some (.CANNOT_READ_FROM_ISTREAM
            ("Can not read from file " ++ file_name ++ ", stream broken.")),
          reader, new_records, read_records_size)
      else
        let start_offset := ops.tellg reader
        let line := ops.getline reader
        let record : Record :=
          { data := line.1, file_name := file_name, offset := start_offset }
        ReadBufferFromFileLog.readNewRecords.whileLoop ops file_name need_records_size
          last_open_end fuel line.2 (new_records ++ [record]) (read_records_size + 1)
    else
      (none, reader, new_records, read_records_size)

/-- Lines 109-154: the body of the `for` loop for the file of index `i`;
the `Bool` says whether the loop is left by the `break` of line 153. -/
def ReadBufferFromFileLog.readNewRecords.file {ρ : Type} (ops : StreamOps ρ)
    (need_records_size end_ i : Nat) (v : ReadVars ρ) :
    Option FileLogFailure × Bool × ReadVars ρ :=
  match v.file_infos.file_names[i]? with
  | none => (some .undefined, false, v)
  | some file_name =>
    match v.file_infos.context_by_name file_name with
    | none => (some .out_of_range, false, v)
    | some file_ctx =>
      if file_ctx.status = .NO_CHANGE then (none, false, v)
      else
        match v.file_infos.inode_by_name file_name with
        | none => (some .out_of_range, false, v)
        | some inode =>
          match v.file_infos.meta_by_inode inode with
          | none => (some .out_of_range, false, v)
          | some file_meta =>
            let read := ReadBufferFromFileLog.readNewRecords.whileLoop ops file_name
              need_records_size file_meta.last_open_end
              (need_records_size - v.read_records_size)
              file_ctx.reader v.new_records v.read_records_size
            let file_ctx : FileContext ρ := { file_ctx with reader := read.2.1 }
            let v : ReadVars ρ :=
              { v with
                file_infos := v.file_infos.setContext file_name file_ctx,
                new_records := read.2.2.1,
                read_records_size := read.2.2.2 }
            match read.1 with
            | some e => (some e, false, v)
            | none =>
              let current_position := ops.tellg file_ctx.reader
              if !ops.good file_ctx.reader then
                (some (.CANNOT_READ_FROM_ISTREAM
                    ("Can not read from file " ++ file_name ++ ", stream broken.")),
                  false, v)
              else
                let file_meta : FileMeta :=
                  { file_meta with last_writen_position := current_position }
                let file_ctx : FileContext ρ :=
                  if current_position = file_meta.last_open_end then
                    { file_ctx with status := .NO_CHANGE }
                  else file_ctx
                let stream_out :=
                  if i = end_ - 1 ∧ file_ctx.status = .NO_CHANGE then true else v.stream_out
                let v : ReadVars ρ :=
                  { v with
                    file_infos :=
                      (v.file_infos.setContext file_name file_ctx).setMeta inode file_meta,
                    stream_out := stream_out }
                (none, decide (v.read_records_size = need_records_size), v)

/-- Lines 107-155: the `for` loop from the index `i`; the first argument bounds
the iterations and is `end - i`. -/
def ReadBufferFromFileLog.readNewRecords.forLoop {ρ : Type} (ops : StreamOps ρ)
    (need_records_size end_ : Nat) :
    Nat → Nat → ReadVars ρ → Option FileLogFailure × ReadVars ρ
  | 0, _, v => (none, v)
  | fuel + 1, i, v =>
    if i < end_ then
      let step := ReadBufferFromFileLog.readNewRecords.file ops need_records_size end_ i v
      match step.1 with
      | some e => (some e, step.2.2)
      | none =>
        if step.2.1 then (none, step.2.2)
        else
          ReadBufferFromFileLog.readNewRecords.forLoop ops need_records_size end_ fuel (i + 1)
            step.2.2
    else (none, v)

/-- Source `readNewRecords` (lines 96-156); `new_records` is passed by
reference, so it is returned, as is the object. -/
def ReadBufferFromFileLog.readNewRecords {ρ : Type} (w : Nat) (ops : StreamOps ρ)
    (self : ReadBufferFromFileLog ρ) (new_records : List Record) (batch_size_ : Nat) :
    Option FileLogFailure × List Record × ReadBufferFromFileLog ρ :=
  let need_records_size := (batch_size_ + 2 ^ w - new_records.length) % 2 ^ w
  let read_records_size := 0
  let file_infos := self.file_infos
  if self.max_streams_number = 0 then (some .undefined, new_records, self)
  else
    let range := ReadBufferFromFileLog.streamRange w file_infos.file_names.length
      self.stream_number self.max_streams_number
    let start := range.1
    let end_ := range.2
    let done := ReadBufferFromFileLog.readNewRecords.forLoop ops need_records_size end_
      (end_ - start) start ⟨file_infos, self.stream_out, new_records, read_records_size⟩
    (done.1, done.2.new_records,
      { self with file_infos := done.2.file_infos, stream_out := done.2.stream_out })

/-- Lines 84-91: the `while` loop of `pollBatch`.  The list holds what
`watch.elapsedMilliseconds()` returns at each evaluation of the condition;
when it is used up the stopwatch has reached `poll_timeout`. -/
def ReadBufferFromFileLog.pollBatch.waitLoop {ρ : Type} (w : Nat) (ops : StreamOps ρ)
    (batch_size_ : Nat) :
    List Nat → List Record → ReadBufferFromFileLog ρ →
      Except FileLogFailure (List Record) × ReadBufferFromFileLog ρ
  | [], new_records, self => (.ok new_records, self)
  | elapsed :: clock, new_records, self =>
    if elapsed < self.poll_timeout ∧ new_records.length ≠ batch_size_ then
      let read := self.readNewRecords w ops new_records self.batch_size
      match read.1 with
      | some e => (.error e, read.2.2)
      | none =>
        if read.2.2.stream_out then (.ok read.2.1, read.2.2)
        else ReadBufferFromFileLog.pollBatch.waitLoop w ops batch_size_ clock read.2.1 read.2.2
    else (.ok new_records, self)

/-- Source `pollBatch` (lines 74-94). -/
def ReadBufferFromFileLog.pollBatch {ρ : Type} (w : Nat) (ops : StreamOps ρ)
    (self : ReadBufferFromFileLog ρ) (batch_size_ : Nat) (clock : List Nat) :
    Except FileLogFailure (List Record) × ReadBufferFromFileLog ρ :=
  let new_records : List Record := []
  let read := self.readNewRecords w ops new_records self.batch_size
  match read.1 with
  | some e => (.error e, read.2.2)
  | none =>
    if read.2.1.length = batch_size_ ∨ read.2.2.stream_out then (.ok read.2.1, read.2.2)
    else ReadBufferFromFileLog.pollBatch.waitLoop w ops batch_size_ clock read.2.1 read.2.2

/-- Source `poll` (lines 45-72). -/
def ReadBufferFromFileLog.poll {ρ : Type} (w : Nat) (ops : StreamOps ρ)
    (self : ReadBufferFromFileLog ρ) (clock : List Nat) :
    Except FileLogFailure Bool × ReadBufferFromFileLog ρ :=
  if self.hasMorePolledRecords then
    (.ok true, { self with allowed := true })
  else
    let self := { self with buffer_status := BufferStatus.NO_RECORD_RETURNED }
    let polled := self.pollBatch w ops self.batch_size clock
    match polled.1 with
    | .error e => (.error e, polled.2)
    | .ok new_records =>
      if new_records.isEmpty then (.ok false, polled.2)
      else
        (.ok true,
          { polled.2 with
            records := new_records, current := 0,
            buffer_status := BufferStatus.POLLED_OK, allowed := true })

/-- Source `nextImpl` (lines 158-173). -/
def ReadBufferFromFileLog.nextImpl {ρ : Type} (self : ReadBufferFromFileLog ρ) :
    Except FileLogFailure Bool × ReadBufferFromFileLog ρ :=
  if !self.allowed || !self.hasMorePolledRecords then (.ok false, self)
  else
    match self.records[self.current]? with
    | none => (.error .undefined, self)
    | some current =>
      (.ok true,
        { self with
          working_buffer := some current.data,
          allowed := false,
          current_file := current.file_name,
          current_offset := current.offset,
          current := self.current + 1 })

/-- The consumer's step: `nextImpl`, then `poll`. -/
def ReadBufferFromFileLog.nextThenPoll {ρ : Type} (w : Nat) (ops : StreamOps ρ)
    (clock : List Nat) (self : ReadBufferFromFileLog ρ) : ReadBufferFromFileLog ρ :=
  (self.nextImpl.2.poll w ops clock).2

/-- The object after a run of calls of `poll`, one per clock, none of which
returned true; `none` when one did. -/
def ReadBufferFromFileLog.afterFailedPolls {ρ : Type} (w : Nat) (ops : StreamOps ρ) :
    List (List Nat) → ReadBufferFromFileLog ρ → Option (ReadBufferFromFileLog ρ)
  | [], self => some self
  | clock :: rest, self =>
    match (self.poll w ops clock).1 with
    | .ok true => none
    | _ => ReadBufferFromFileLog.afterFailedPolls w ops rest (self.poll w ops clock).2

/-- A stream for the scenarios: the lines still to read, each ended by a
newline, and the position; reading past the last line breaks the stream. -/
structure LineReader where
  lines : List String
  pos : Nat
  ok : Bool
deriving DecidableEq, Repr

/-- The stream operations of a `LineReader`. -/
def LineReader.ops : StreamOps LineReader :=
  { tellg := fun r => r.pos,
    good := fun r => r.ok,
    getline := fun r =>
      match r.lines with
      | [] => ("", { r with ok := false })
      | line :: rest => (line, { r with lines := rest, pos := r.pos + line.length + 1 }) }

/-- Scenario: two files, `a.log` with the lines `x`, `yy` and `b.log` with the
line `z`, both unread. -/
def scenarioFileInfos : FileInfos LineReader :=
  { file_names := ["a.log", "b.log"],
    context_by_name := fun n =>
      if n = "a.log" then some ⟨.UPDATED, ⟨["x", "yy"], 0, true⟩⟩
      else if n = "b.log" then some ⟨.UPDATED, ⟨["z"], 0, true⟩⟩
      else none,
    inode_by_name := fun n =>
      if n = "a.log" then some 1 else if n = "b.log" then some 2 else none,
    meta_by_inode := fun i =>
      if i = 1 then some ⟨0, 5⟩ else if i = 2 then some ⟨0, 2⟩ else none }

/-- Scenario: the only stream over `scenarioFileInfos`, with the given batch
size, as the constructor leaves it. -/
def scenarioBuffer (batch_size : Nat) : ReadBufferFromFileLog LineReader :=
  ReadBufferFromFileLog.construct
    { file_infos := scenarioFileInfos, batch_size := batch_size, poll_timeout := 100,
      stream_number := 0, max_streams_number := 1,
      buffer_status := .INIT, stream_out := false,
      records := [], current := 0, allowed := true,
      current_file := "", current_offset := 0, working_buffer := none }

/-! ## Lemmas: memory, pointers, slots -/

open compileFunction

theorem Mem.store_same (m : Mem) (p : Ptr) (v : Int) : Mem.store m p v p = v := by
  simp [Mem.store]

theorem Mem.store_other (m : Mem) (p q : Ptr) (v : Int) (h : q ≠ p) :
    Mem.store m p v q = m q := by
  simp [Mem.store, h]

theorem Mem.storeAll_frame (stores : List (Ptr × Int)) (m : Mem) (q : Ptr)
    (h : ∀ s ∈ stores, q ≠ s.1) : Mem.storeAll m stores q = m q := by
  induction stores generalizing m with
  | nil => rfl
  | cons s rest ih =>
    have h1 : q ≠ s.1 := h s (List.mem_cons_self _ _)
    have h2 : ∀ t ∈ rest, q ≠ t.1 := fun t ht => h t (List.mem_cons_of_mem _ ht)
    simp only [Mem.storeAll]
    rw [ih _ h2, Mem.store_other _ _ _ _ h1]

theorem Ptr.gep_zero (p : Ptr) : p.gep 0 = p := by
  cases p; simp [Ptr.gep]

theorem Ptr.gep_gep (p : Ptr) (a b : Nat) : (p.gep a).gep b = p.gep (a + b) := by
  simp [Ptr.gep, Nat.add_assoc]

theorem Ptr.gep_inj (p : Ptr) (a b : Nat) : p.gep a = p.gep b ↔ a = b := by
  simp [Ptr.gep]

theorem PtrValue.typed_gep_zero (p : PtrValue) : p.gep 0 = p := by
  cases p; simp [PtrValue.gep, Ptr.gep_zero]

theorem PtrValue.typed_gep_gep (p : PtrValue) (a b : Nat) : (p.gep a).gep b = p.gep (a + b) := by
  simp [PtrValue.gep, Ptr.gep_gep]

theorem compileFunction.atRow_zero (col : ColumnDataPlaceholder) : atRow 0 col = col := by
  cases col with
  | mk di ni d n =>
    cases n <;> simp [atRow, PtrValue.typed_gep_zero]

theorem compileFunction.advance_atRow (k : Nat) (col : ColumnDataPlaceholder) :
    advance (atRow k col) = atRow (k + 1) col := by
  cases col with
  | mk di ni d n =>
    cases n <;> simp [atRow, advance, PtrValue.typed_gep_gep]

theorem compileFunction.SlotsMatch.advance {f : IFunctionBaseImpl}
    {columns : List ColumnDataPlaceholder} (h : SlotsMatch f columns) :
    SlotsMatch f (columns.map compileFunction.advance) := by
  unfold SlotsMatch at *
  rw [← h, List.map_map]
  apply List.map_congr_left
  intro c _
  cases hc : c.null <;> simp [compileFunction.advance, hc]

/-- Shape of the slot list behind `SlotsMatch`. -/
theorem compileFunction.SlotsMatch.split {f : IFunctionBaseImpl}
    {columns : List ColumnDataPlaceholder} (h : SlotsMatch f columns) :
    ∃ init back, columns = init ++ [back]
      ∧ init.length = f.getArgumentTypes.length
      ∧ init.map (fun c => c.null.isSome) = f.getArgumentTypes.map DataType.isNullable
      ∧ back.null.isSome = f.getResultType.isNullable := by
  unfold SlotsMatch at h
  rw [List.map_append, List.map_eq_append_iff] at h
  obtain ⟨l₁, l₂, hcols, h1, h2⟩ := h
  have hl2 : ∃ back, l₂ = [back] := by
    match l₂, h2 with
    | [b], _ => exact ⟨b, rfl⟩
    | [], h2 => simp at h2
    | _ :: _ :: _, h2 => simp at h2
  obtain ⟨back, rfl⟩ := hl2
  refine ⟨l₁, back, hcols, ?_, h1, ?_⟩
  · have := congrArg List.length h1
    simpa using this
  · simpa using h2

theorem compileFunction.arguments_shape {f : IFunctionBaseImpl}
    {columns : List ColumnDataPlaceholder} (h : SlotsMatch f columns) (mem : Mem) :
    (arguments f.getArgumentTypes.length columns mem).map Value.isComposite
      = f.getArgumentTypes.map DataType.isNullable := by
  obtain ⟨init, back, rfl, hlen, hinit, _⟩ := h.split
  unfold compileFunction.arguments
  rw [List.take_left' hlen, ← hinit, List.map_map]
  apply List.map_congr_left
  intro c _
  cases hc : c.null <;> simp [hc, Value.isComposite]

theorem compileFunction.resultStores_ok (back : ColumnDataPlaceholder) (result : Value)
    (h : result.isComposite = back.null.isSome) :
    resultStores back result = .ok (rowStores back result) := by
  unfold resultStores rowStores
  cases hb : back.null <;> cases result <;>
    simp_all [Value.isComposite, Value.payload, Value.isNull]

theorem compileFunction.loopBody_ok {w : Nat} {f : IFunctionBaseImpl} (hf : f.WellShaped)
    {st : LoopState} (h : SlotsMatch f st.columns) :
    loopBody w f st = .ok (record f st, next w f st) := by
  obtain ⟨init, back, hcols, hlen, hinit, hback⟩ := h.split
  have hshape := hf _ (arguments_shape h st.mem)
  have hlast : st.columns.getLast? = some back := by rw [hcols, List.getLast?_concat]
  have hst := resultStores_ok back
    (f.compile (arguments f.getArgumentTypes.length st.columns st.mem)) (by rw [hshape, hback])
  simp only [loopBody, next, record, hlast, hst]


/-! ## Lemmas: the closed form of the loop -/

theorem compileFunction.headerAt_succ_next (w : Nat) (f : IFunctionBaseImpl) (st : LoopState)
    (k : Nat) : headerAt w f st (k + 1) = headerAt w f (next w f st) k := by
  induction k with
  | zero => rfl
  | succ k ih =>
    show next w f (headerAt w f st (k + 1)) = next w f (headerAt w f (next w f st) k)
    rw [ih]

theorem compileFunction.headerAt_columns (w : Nat) (f : IFunctionBaseImpl) (st : LoopState)
    (k : Nat) : (headerAt w f st k).columns = st.columns.map (atRow k) := by
  induction k with
  | zero =>
    simp only [headerAt]
    rw [List.map_congr_left (fun c _ => atRow_zero c)]
    simp
  | succ k ih =>
    simp only [headerAt, next, ih, List.map_map]
    apply List.map_congr_left
    intro c _
    exact advance_atRow k c

theorem compileFunction.SlotsMatch.headerAt {w : Nat} {f : IFunctionBaseImpl} {st : LoopState}
    (h : SlotsMatch f st.columns) (k : Nat) : SlotsMatch f (headerAt w f st k).columns := by
  induction k with
  | zero => exact h
  | succ k ih => exact ih.advance

theorem compileFunction.decrement_eq {w c : Nat} (h1 : 1 ≤ c) (h2 : c < 2 ^ w) :
    decrement w c = c - 1 := by
  unfold decrement
  have : c + 2 ^ w - 1 = (c - 1) + 2 ^ w := by omega
  rw [this, Nat.add_mod_right, Nat.mod_eq_of_lt (by omega)]

theorem compileFunction.headerAt_counter {w : Nat} (f : IFunctionBaseImpl) (st : LoopState)
    (h2 : st.counter_phi < 2 ^ w) (k : Nat) (hk : k < st.counter_phi) :
    (headerAt w f st k).counter_phi = st.counter_phi - k := by
  induction k with
  | zero => rfl
  | succ k ih =>
    have := ih (by omega)
    simp only [headerAt, next]
    rw [this, decrement_eq (by omega) (by omega)]
    omega

/-- Closed form of the loop: with a counter `n ≥ 1` that fits the word and enough
fuel, the body runs from the header states `0 … n-1` and `end` is reached with
the memory of header state `n`. -/
theorem compileFunction.loop_eq {w : Nat} {f : IFunctionBaseImpl} (hf : f.WellShaped) :
    ∀ (n fuel : Nat) (st : LoopState), SlotsMatch f st.columns →
      st.counter_phi = n + 1 → n + 1 < 2 ^ w → n + 1 ≤ fuel →
      loop w f fuel st
        = .ok ((List.range (n + 1)).map (fun k => record f (headerAt w f st k)),
               (headerAt w f st (n + 1)).mem) := by
  intro n
  induction n with
  | zero =>
    intro fuel st hs hc _ hfuel
    obtain ⟨fuel, rfl⟩ : ∃ g, fuel = g + 1 := ⟨fuel - 1, by omega⟩
    simp [loop, loopBody_ok hf hs, hc, headerAt, List.range_succ]
  | succ n ih =>
    intro fuel st hs hc hw hfuel
    obtain ⟨fuel, rfl⟩ : ∃ g, fuel = g + 1 := ⟨fuel - 1, by omega⟩
    have hnext : (next w f st).counter_phi = n + 1 := by
      simp only [next]
      rw [hc, decrement_eq (by omega) hw]
      omega
    have hrec := ih fuel (next w f st) hs.advance hnext (by omega) (by omega)
    have hne : st.counter_phi ≠ 1 := by omega
    simp only [loop, loopBody_ok hf hs, hne, hrec, ne_eq, not_false_eq_true, if_true]
    rw [List.range_succ_eq_map (n + 1)]
    simp only [List.map_cons, List.map_map, headerAt]
    congr 2
    · congr 1
      apply List.map_congr_left
      intro k _
      simp only [Function.comp, Nat.succ_eq_add_one]
      rw [headerAt_succ_next]
    · show (headerAt w f (next w f st) (n + 1)).mem = (headerAt w f st (n + 1 + 1)).mem
      rw [headerAt_succ_next w f st (n + 1)]

theorem compileFunction.entry_length (f : IFunctionBaseImpl) (columns_arg : Nat → ColumnData) :
    (entry f columns_arg).length = f.getArgumentTypes.length + 1 := by
  simp [entry]

theorem compileFunction.slotType_arg (f : IFunctionBaseImpl) (i : Nat)
    (h : i < f.getArgumentTypes.length) :
    f.getArgumentTypes[i]? = some (slotType f i) := by
  unfold slotType
  simp only [Nat.ne_of_lt h, if_false, List.getD_eq_getElem?_getD]
  rw [List.getElem?_eq_getElem h]
  rfl

theorem compileFunction.slotType_result (f : IFunctionBaseImpl) :
    slotType f f.getArgumentTypes.length = f.getResultType := by
  simp [slotType]

theorem compileFunction.slotTypes (f : IFunctionBaseImpl) :
    (List.range (f.getArgumentTypes.length + 1)).map (slotType f)
      = f.getArgumentTypes ++ [f.getResultType] := by
  apply List.ext_getElem?
  intro i
  rw [List.getElem?_map]
  by_cases h : i < f.getArgumentTypes.length
  · rw [List.getElem?_range (by omega), List.getElem?_append_left h, slotType_arg f i h]
    rfl
  · by_cases h2 : i = f.getArgumentTypes.length
    · subst h2
      rw [List.getElem?_range (by omega), List.getElem?_append_right (le_refl _)]
      simp [slotType_result]
    · rw [List.getElem?_eq_none (by simp; omega), List.getElem?_eq_none (by simp; omega)]
      rfl

theorem compileFunction.entry_slotsMatch (f : IFunctionBaseImpl)
    (columns_arg : Nat → ColumnData) : SlotsMatch f (entry f columns_arg) := by
  unfold SlotsMatch
  rw [← slotTypes f, entry, List.map_map, List.map_map]
  apply List.map_congr_left
  intro i _
  simp only [Function.comp]
  cases h : (slotType f i).isNullable <;> simp [h]


/-! ## Lemmas: the rows of a run -/

theorem compileFunction.run_eq {w : Nat} {f : IFunctionBaseImpl} (hf : f.WellShaped)
    (R fuel : Nat) (columns_arg : Nat → ColumnData) (mem : Mem)
    (hR : 1 ≤ R) (hw : R < 2 ^ w) (hfuel : R ≤ fuel) :
    run w f fuel R columns_arg mem
      = .ok ((List.range R).map
               (fun k => record f (headerAt w f (start w f R columns_arg mem) k)),
             (headerAt w f (start w f R columns_arg mem) R).mem) := by
  obtain ⟨n, rfl⟩ : ∃ n, R = n + 1 := ⟨R - 1, by omega⟩
  have h := loop_eq hf n fuel (start w f (n + 1) columns_arg mem)
    (entry_slotsMatch f columns_arg) (by simp [start, Nat.mod_eq_of_lt hw]) hw hfuel
  exact h

theorem compileFunction.entry_split (f : IFunctionBaseImpl) (columns_arg : Nat → ColumnData) :
    entry f columns_arg
      = (List.range f.getArgumentTypes.length).map
          (fun i => slot (slotType f i) (columns_arg i))
        ++ [slot f.getResultType (columns_arg f.getArgumentTypes.length)] := by
  unfold entry
  simp only [List.range_succ, List.map_append, List.map_cons, List.map_nil, slotType_result]
  rfl

theorem compileFunction.start_columns_at (w : Nat) (f : IFunctionBaseImpl) (R : Nat)
    (columns_arg : Nat → ColumnData) (mem : Mem) (k : Nat) :
    (headerAt w f (start w f R columns_arg mem) k).columns
      = (List.range f.getArgumentTypes.length).map
          (fun i => atRow k (slot (slotType f i) (columns_arg i)))
        ++ [atRow k (slot f.getResultType (columns_arg f.getArgumentTypes.length))] := by
  rw [headerAt_columns]
  simp only [start, entry_split, List.map_append, List.map_map, List.map_cons, List.map_nil]
  rfl

theorem compileFunction.arguments_at (w : Nat) (f : IFunctionBaseImpl) (R : Nat)
    (columns_arg : Nat → ColumnData) (mem : Mem) (k : Nat) (m : Mem) :
    arguments f.getArgumentTypes.length
        (headerAt w f (start w f R columns_arg mem) k).columns m
      = rowArguments f columns_arg k m := by
  rw [start_columns_at, arguments, List.take_left' (by simp), List.map_map]
  unfold rowArguments
  apply List.map_congr_left
  intro i _
  simp only [Function.comp, atRow, slot, rowValue]
  cases h : (slotType f i).isNullable <;> simp [PtrValue.gep]

theorem compileFunction.record_at (w : Nat) (f : IFunctionBaseImpl) (R : Nat)
    (columns_arg : Nat → ColumnData) (mem : Mem) (k : Nat) :
    let st := headerAt w f (start w f R columns_arg mem) k
    let d := columns_arg f.getArgumentTypes.length
    (record f st).arguments = rowArguments f columns_arg k st.mem
    ∧ (record f st).result = f.compile (rowArguments f columns_arg k st.mem)
    ∧ (record f st).stores
        = if f.getResultType.isNullable then
            [(d.data.gep k, (f.compile (rowArguments f columns_arg k st.mem)).payload),
             (d.null.gep k, if (f.compile (rowArguments f columns_arg k st.mem)).isNull
                            then 1 else 0)]
          else [(d.data.gep k, (f.compile (rowArguments f columns_arg k st.mem)).payload)] := by
  intro st d
  have hargs := arguments_at w f R columns_arg mem k st.mem
  have hcols := start_columns_at w f R columns_arg mem k
  refine ⟨hargs, ?_, ?_⟩
  · show f.compile (arguments _ st.columns st.mem) = _
    rw [hargs]
  · show (match st.columns.getLast? with
          | some back => rowStores back (f.compile (arguments _ st.columns st.mem))
          | none => []) = _
    rw [hargs, hcols, List.getLast?_concat]
    simp only [rowStores, atRow, slot]
    cases h : f.getResultType.isNullable <;> simp [PtrValue.gep, d]

/-! ## Lemmas and theorem: trip count -/

theorem compileFunction.start_columns_range (w : Nat) (f : IFunctionBaseImpl) (R : Nat)
    (columns_arg : Nat → ColumnData) (mem : Mem) (k : Nat) :
    (headerAt w f (start w f R columns_arg mem) k).columns
      = (List.range (f.getArgumentTypes.length + 1)).map
          (fun i => atRow k (slot (slotType f i) (columns_arg i))) := by
  rw [headerAt_columns]
  simp only [start, entry, List.map_map]
  rfl

/-- The slot `i` of the header state of row `k`. -/
theorem compileFunction.column_at (w : Nat) (f : IFunctionBaseImpl) (R : Nat)
    (columns_arg : Nat → ColumnData) (mem : Mem) (k i : Nat) (col : ColumnDataPlaceholder)
    (h : (headerAt w f (start w f R columns_arg mem) k).columns[i]? = some col) :
    i ≤ f.getArgumentTypes.length ∧ col = atRow k (slot (slotType f i) (columns_arg i)) := by
  rw [start_columns_range, List.getElem?_map] at h
  by_cases hi : i < f.getArgumentTypes.length + 1
  · rw [List.getElem?_range hi] at h
    simp only [Option.map_some', Option.some.injEq] at h
    exact ⟨by omega, h.symm⟩
  · rw [List.getElem?_eq_none (by simp; omega)] at h
    simp at h

/-- Every run on `R ≥ 1` rows reaches `end`; its body executions are the records
of the header states `0 … R-1`. -/
theorem compileFunction.run_rows {w : Nat} {f : IFunctionBaseImpl} (hf : f.WellShaped)
    (R fuel : Nat) (columns_arg : Nat → ColumnData) (mem : Mem)
    (hR : 1 ≤ R) (hw : R < 2 ^ w) (hfuel : R ≤ fuel) :
    ∃ its mem', run w f fuel R columns_arg mem = .ok (its, mem')
      ∧ its.length = R
      ∧ (∀ k it, its[k]? = some it →
          k < R ∧ it = record f (headerAt w f (start w f R columns_arg mem) k))
      ∧ mem' = (headerAt w f (start w f R columns_arg mem) R).mem := by
  refine ⟨_, _, run_eq hf R fuel columns_arg mem hR hw hfuel, by simp, ?_, rfl⟩
  intro k it h
  rw [List.getElem?_map] at h
  by_cases hk : k < R
  · rw [List.getElem?_range hk] at h
    simp only [Option.map_some', Option.some.injEq] at h
    exact ⟨hk, h.symm⟩
  · rw [List.getElem?_eq_none (by simp; omega)] at h
    simp at h

theorem compileFunction.stores_cells (w : Nat) (f : IFunctionBaseImpl) (R : Nat)
    (columns_arg : Nat → ColumnData) (mem : Mem) (k : Nat) :
    (record f (headerAt w f (start w f R columns_arg mem) k)).stores.map Prod.fst
      = resultCells f columns_arg k := by
  rw [(record_at w f R columns_arg mem k).2.2]
  unfold resultCells
  cases h : f.getResultType.isNullable <;> simp

/-- C1: for a row count `R ≥ 1` that fits the machine word the generated loop
reaches `end` after exactly `R` executions of its body, and the `k`-th execution
(`k = 0 … R-1`) works on row `k`: every slot's current pointers are the
descriptor's pointers advanced by `k`, the contract gets the Values of row `k`
and the stores go to the result cells of row `k`. -/
theorem compileFunction.loop_trip_count (w : Nat) (f : IFunctionBaseImpl) (R fuel : Nat)
    (columns_arg : Nat → ColumnData) (mem : Mem)
    (hf : f.WellShaped) (hR : 1 ≤ R) (hw : R < 2 ^ w) (hfuel : R ≤ fuel) :
    ∃ its mem', run w f fuel R columns_arg mem = .ok (its, mem')
      ∧ its.length = R
      ∧ ∀ k it, its[k]? = some it →
          k < R
          ∧ it.columns.length = f.getArgumentTypes.length + 1
          ∧ (∀ i col, it.columns[i]? = some col →
              col.data.addr = (columns_arg i).data.gep k
              ∧ col.null.map PtrValue.addr
                  = if (slotType f i).isNullable then some ((columns_arg i).null.gep k)
                    else none)
          ∧ it.arguments = rowArguments f columns_arg k it.mem
          ∧ it.stores.map Prod.fst = resultCells f columns_arg k := by
  obtain ⟨its, mem', hrun, hlen, hrows, _⟩ := run_rows hf R fuel columns_arg mem hR hw hfuel
  refine ⟨its, mem', hrun, hlen, ?_⟩
  intro k it hit
  obtain ⟨hk, rfl⟩ := hrows k it hit
  refine ⟨hk, ?_, ?_, (record_at w f R columns_arg mem k).1, stores_cells w f R columns_arg mem k⟩
  · show (headerAt w f (start w f R columns_arg mem) k).columns.length = _
    rw [start_columns_range]
    simp
  · intro i col hcol
    obtain ⟨_, rfl⟩ := column_at w f R columns_arg mem k i col hcol
    simp only [atRow, slot, PtrValue.gep]
    cases h : (slotType f i).isNullable <;> simp

/-! ## Lemmas: the memory of a run -/

theorem compileFunction.mem_succ (w : Nat) (f : IFunctionBaseImpl) (st : LoopState) (k : Nat) :
    (headerAt w f st (k + 1)).mem
      = Mem.storeAll (headerAt w f st k).mem (record f (headerAt w f st k)).stores := rfl

/-- Cells that no row in `[a, b)` writes keep their content from header `a` to
header `b`. -/
theorem compileFunction.mem_frame (w : Nat) (f : IFunctionBaseImpl) (R : Nat)
    (columns_arg : Nat → ColumnData) (mem : Mem) (q : Ptr) (a d : Nat)
    (h : ∀ i, a ≤ i → i < a + d → q ∉ resultCells f columns_arg i) :
    (headerAt w f (start w f R columns_arg mem) (a + d)).mem q
      = (headerAt w f (start w f R columns_arg mem) a).mem q := by
  induction d with
  | zero => rfl
  | succ d ih =>
    have ih2 := ih (fun i h1 h2 => h i h1 (by omega))
    rw [← ih2, ← Nat.add_assoc, mem_succ]
    apply Mem.storeAll_frame
    intro s hs heq
    apply h (a + d) (by omega) (by omega)
    rw [← stores_cells w f R columns_arg mem (a + d)]
    exact List.mem_map.mpr ⟨s, hs, heq.symm⟩

theorem compileFunction.mem_frame_le (w : Nat) (f : IFunctionBaseImpl) (R : Nat)
    (columns_arg : Nat → ColumnData) (mem : Mem) (q : Ptr) (a b : Nat) (hab : a ≤ b)
    (h : ∀ i, a ≤ i → i < b → q ∉ resultCells f columns_arg i) :
    (headerAt w f (start w f R columns_arg mem) b).mem q
      = (headerAt w f (start w f R columns_arg mem) a).mem q := by
  obtain ⟨d, rfl⟩ : ∃ d, b = a + d := ⟨b - a, by omega⟩
  exact mem_frame w f R columns_arg mem q a d h

theorem compileFunction.start_mem (w : Nat) (f : IFunctionBaseImpl) (R : Nat)
    (columns_arg : Nat → ColumnData) (mem : Mem) :
    (headerAt w f (start w f R columns_arg mem) 0).mem = mem := rfl

/-- The data cell of row `k` right after row `k` was executed. -/
theorem compileFunction.mem_data_written (w : Nat) (f : IFunctionBaseImpl) (R : Nat)
    (columns_arg : Nat → ColumnData) (mem : Mem) (k : Nat)
    (h : f.getResultType.isNullable = true →
          (columns_arg f.getArgumentTypes.length).null.gep k
            ≠ (columns_arg f.getArgumentTypes.length).data.gep k) :
    (headerAt w f (start w f R columns_arg mem) (k + 1)).mem
        ((columns_arg f.getArgumentTypes.length).data.gep k)
      = (f.compile (rowArguments f columns_arg k
          (headerAt w f (start w f R columns_arg mem) k).mem)).payload := by
  rw [mem_succ, (record_at w f R columns_arg mem k).2.2]
  cases hn : f.getResultType.isNullable
  · simp [Mem.storeAll, Mem.store]
  · have := (h hn).symm
    simp [Mem.storeAll, Mem.store, this]

/-- The null byte of row `k` right after row `k` was executed. -/
theorem compileFunction.mem_null_written (w : Nat) (f : IFunctionBaseImpl) (R : Nat)
    (columns_arg : Nat → ColumnData) (mem : Mem) (k : Nat)
    (hn : f.getResultType.isNullable = true) :
    (headerAt w f (start w f R columns_arg mem) (k + 1)).mem
        ((columns_arg f.getArgumentTypes.length).null.gep k)
      = if (f.compile (rowArguments f columns_arg k
          (headerAt w f (start w f R columns_arg mem) k).mem)).isNull then 1 else 0 := by
  rw [mem_succ, (record_at w f R columns_arg mem k).2.2]
  simp [hn, Mem.storeAll, Mem.store]

theorem compileFunction.rowValue_congr (t : DataType) (d : ColumnData) (k : Nat) (m₁ m₂ : Mem)
    (hd : m₁ (d.data.gep k) = m₂ (d.data.gep k))
    (hn : t.isNullable = true → m₁ (d.null.gep k) = m₂ (d.null.gep k)) :
    rowValue t d k m₁ = rowValue t d k m₂ := by
  unfold rowValue
  cases h : t.isNullable
  · simp [hd]
  · simp [hd, hn h]

/-- The argument Values of a row depend on the argument cells of that row only. -/
theorem compileFunction.rowArguments_congr (f : IFunctionBaseImpl)
    (columns_arg : Nat → ColumnData) (k : Nat) (m₁ m₂ : Mem)
    (h : ∀ p ∈ argumentCells f columns_arg k, m₁ p = m₂ p) :
    rowArguments f columns_arg k m₁ = rowArguments f columns_arg k m₂ := by
  unfold rowArguments
  apply List.map_congr_left
  intro i hi
  have hcell : ∀ p, p ∈ (if (slotType f i).isNullable
        then [(columns_arg i).data.gep k, (columns_arg i).null.gep k]
        else [(columns_arg i).data.gep k]) → m₁ p = m₂ p := by
    intro p hp
    apply h p
    unfold argumentCells
    exact List.mem_flatMap.mpr ⟨i, hi, hp⟩
  apply rowValue_congr
  · apply hcell
    cases (slotType f i).isNullable <;> simp
  · intro hn
    apply hcell
    simp [hn]

/-- When no earlier row writes a cell that row `k` reads, row `k` reads the
initial memory. -/
theorem compileFunction.rowArguments_initial (w : Nat) (f : IFunctionBaseImpl) (R : Nat)
    (columns_arg : Nat → ColumnData) (mem : Mem) (k : Nat)
    (h : ∀ i, i < k → ∀ p ∈ resultCells f columns_arg i, p ∉ argumentCells f columns_arg k) :
    rowArguments f columns_arg k (headerAt w f (start w f R columns_arg mem) k).mem
      = rowArguments f columns_arg k mem := by
  apply rowArguments_congr
  intro p hp
  have := mem_frame_le w f R columns_arg mem p 0 k (Nat.zero_le _)
    (fun i _ hik hmem => h i hik p hmem hp)
  rw [this]
  rfl

/-! ## The frame of a run -/

theorem compileFunction.mem_resultCells (f : IFunctionBaseImpl) (columns_arg : Nat → ColumnData)
    (i : Nat) (q : Ptr) :
    q ∈ resultCells f columns_arg i ↔
      q = (columns_arg f.getArgumentTypes.length).data.gep i
      ∨ (f.getResultType.isNullable = true
          ∧ q = (columns_arg f.getArgumentTypes.length).null.gep i) := by
  unfold resultCells
  cases h : f.getResultType.isNullable <;> simp

/-- The data cell of row `k` at `end`. -/
theorem compileFunction.final_data (w : Nat) (f : IFunctionBaseImpl) (R : Nat)
    (columns_arg : Nat → ColumnData) (mem : Mem) (k : Nat) (hk : k < R)
    (h : f.getResultType.isNullable = true → ∀ i, k ≤ i → i < R →
          (columns_arg f.getArgumentTypes.length).null.gep i
            ≠ (columns_arg f.getArgumentTypes.length).data.gep k) :
    (headerAt w f (start w f R columns_arg mem) R).mem
        ((columns_arg f.getArgumentTypes.length).data.gep k)
      = (f.compile (rowArguments f columns_arg k
          (headerAt w f (start w f R columns_arg mem) k).mem)).payload := by
  rw [mem_frame_le w f R columns_arg mem _ (k + 1) R (by omega)]
  · exact mem_data_written w f R columns_arg mem k (fun hn => h hn k (le_refl _) hk)
  · intro i h1 h2 hmem
    rw [mem_resultCells] at hmem
    rcases hmem with heq | ⟨hn, heq⟩
    · rw [Ptr.gep_inj] at heq
      omega
    · exact h hn i (by omega) h2 heq.symm

/-- The null byte of row `k` at `end`. -/
theorem compileFunction.final_null (w : Nat) (f : IFunctionBaseImpl) (R : Nat)
    (columns_arg : Nat → ColumnData) (mem : Mem) (k : Nat) (hk : k < R)
    (hn : f.getResultType.isNullable = true)
    (h : ∀ i, k < i → i < R →
          (columns_arg f.getArgumentTypes.length).data.gep i
            ≠ (columns_arg f.getArgumentTypes.length).null.gep k) :
    (headerAt w f (start w f R columns_arg mem) R).mem
        ((columns_arg f.getArgumentTypes.length).null.gep k)
      = if (f.compile (rowArguments f columns_arg k
          (headerAt w f (start w f R columns_arg mem) k).mem)).isNull then 1 else 0 := by
  rw [mem_frame_le w f R columns_arg mem _ (k + 1) R (by omega)]
  · exact mem_null_written w f R columns_arg mem k hn
  · intro i h1 h2 hmem
    rw [mem_resultCells] at hmem
    rcases hmem with heq | ⟨_, heq⟩
    · exact h i (by omega) h2 heq.symm
    · rw [Ptr.gep_inj] at heq
      omega

/-- C8: a run on `R ≥ 1` rows stores to the result cells of rows `0 … R-1` and
nowhere else: each body execution stores only to the result cells of its row,
and at `end` every cell that is not the result data cell (or, for a nullable
result, the result null byte) of a row below `R` holds what it held at the
start.  In particular so do the result elements at indices `≥ R` and every
argument cell that is not also such a result cell. -/
theorem compileFunction.stores_only_result_rows (w : Nat) (f : IFunctionBaseImpl) (R fuel : Nat)
    (columns_arg : Nat → ColumnData) (mem : Mem)
    (hf : f.WellShaped) (hR : 1 ≤ R) (hw : R < 2 ^ w) (hfuel : R ≤ fuel) :
    ∃ its mem', run w f fuel R columns_arg mem = .ok (its, mem')
      ∧ (∀ k it, its[k]? = some it → ∀ s ∈ it.stores,
          k < R ∧ (s.1 = (columns_arg f.getArgumentTypes.length).data.gep k
            ∨ (f.getResultType.isNullable = true
                ∧ s.1 = (columns_arg f.getArgumentTypes.length).null.gep k)))
      ∧ (∀ q : Ptr,
          (∀ i, i < R → q ≠ (columns_arg f.getArgumentTypes.length).data.gep i) →
          (f.getResultType.isNullable = true →
            ∀ i, i < R → q ≠ (columns_arg f.getArgumentTypes.length).null.gep i) →
          mem' q = mem q)
      ∧ (∀ i, R ≤ i →
          (f.getResultType.isNullable = true → ∀ j, j < R →
            (columns_arg f.getArgumentTypes.length).data.gep i
              ≠ (columns_arg f.getArgumentTypes.length).null.gep j) →
          mem' ((columns_arg f.getArgumentTypes.length).data.gep i)
            = mem ((columns_arg f.getArgumentTypes.length).data.gep i))
      ∧ (∀ k, k < R → ∀ p ∈ argumentCells f columns_arg k,
          (∀ i, i < R → p ∉ resultCells f columns_arg i) → mem' p = mem p) := by
  obtain ⟨its, mem', hrun, _, hrows, hmem⟩ := run_rows hf R fuel columns_arg mem hR hw hfuel
  have hframe : ∀ q : Ptr, (∀ i, i < R → q ∉ resultCells f columns_arg i) → mem' q = mem q := by
    intro q hq
    rw [hmem, mem_frame_le w f R columns_arg mem q 0 R (Nat.zero_le _) (fun i _ hi => hq i hi)]
    rfl
  refine ⟨its, mem', hrun, ?_, ?_, ?_, ?_⟩
  · intro k it hit s hs
    obtain ⟨hk, rfl⟩ := hrows k it hit
    refine ⟨hk, ?_⟩
    rw [← mem_resultCells, ← stores_cells w f R columns_arg mem k]
    exact List.mem_map.mpr ⟨s, hs, rfl⟩
  · intro q h1 h2
    apply hframe
    intro i hi hmemq
    rw [mem_resultCells] at hmemq
    rcases hmemq with heq | ⟨hn, heq⟩
    · exact h1 i hi heq
    · exact h2 hn i hi heq
  · intro i hi h2
    apply hframe
    intro j hj hmemq
    rw [mem_resultCells] at hmemq
    rcases hmemq with heq | ⟨hn, heq⟩
    · rw [Ptr.gep_inj] at heq
      omega
    · exact h2 hn j hj heq
  · intro k _ p _ hp
    exact hframe p hp

/-! ## Argument values and result stores -/

theorem compileFunction.rowArguments_length (f : IFunctionBaseImpl)
    (columns_arg : Nat → ColumnData) (k : Nat) (m : Mem) :
    (rowArguments f columns_arg k m).length = f.getArgumentTypes.length := by
  simp [rowArguments]

theorem compileFunction.rowArguments_getElem? (f : IFunctionBaseImpl)
    (columns_arg : Nat → ColumnData) (k : Nat) (m : Mem) (j : Nat) (t : DataType)
    (h : f.getArgumentTypes[j]? = some t) :
    (rowArguments f columns_arg k m)[j]? = some (rowValue t (columns_arg j) k m) := by
  have hj : j < f.getArgumentTypes.length := by
    by_contra hc
    rw [List.getElem?_eq_none (by omega)] at h
    simp at h
  have ht : slotType f j = t := by
    have := slotType_arg f j hj
    rw [h] at this
    exact (Option.some.inj this).symm
  unfold rowArguments
  rw [List.getElem?_map, List.getElem?_range hj, ← ht]
  rfl

/-- C3: in every body execution `k` of a run, the Values handed to the contract
are, argument by argument, read from row `k`: for a nullable argument type the
pair of the scalar in the data cell and the flag "null byte is not zero" (the
flag is read from the null cell alone), for a non-nullable one the bare scalar.
The memory they are read from is the initial one outside the result cells of
the rows already written. -/
theorem compileFunction.argument_values (w : Nat) (f : IFunctionBaseImpl) (R fuel : Nat)
    (columns_arg : Nat → ColumnData) (mem : Mem)
    (hf : f.WellShaped) (hR : 1 ≤ R) (hw : R < 2 ^ w) (hfuel : R ≤ fuel) :
    ∃ its mem', run w f fuel R columns_arg mem = .ok (its, mem')
      ∧ its.length = R
      ∧ ∀ k it, its[k]? = some it →
          it.result = f.compile it.arguments
          ∧ it.arguments.length = f.getArgumentTypes.length
          ∧ (∀ j t, f.getArgumentTypes[j]? = some t →
              it.arguments[j]? = some
                (if t.isNullable then
                  Value.composite (it.mem ((columns_arg j).data.gep k))
                    (decide (it.mem ((columns_arg j).null.gep k) ≠ 0))
                 else Value.scalar (it.mem ((columns_arg j).data.gep k))))
          ∧ (∀ p : Ptr, (∀ i, i < k → p ∉ resultCells f columns_arg i) → it.mem p = mem p) := by
  obtain ⟨its, mem', hrun, hlen, hrows, _⟩ := run_rows hf R fuel columns_arg mem hR hw hfuel
  refine ⟨its, mem', hrun, hlen, ?_⟩
  intro k it hit
  obtain ⟨_, rfl⟩ := hrows k it hit
  obtain ⟨hargs, hres, _⟩ := record_at w f R columns_arg mem k
  refine ⟨?_, ?_, ?_, ?_⟩
  · rw [hres, hargs]
  · rw [hargs, rowArguments_length]
  · intro j t hj
    rw [hargs, rowArguments_getElem? f columns_arg k _ j t hj]
    rfl
  · intro p hp
    exact mem_frame_le w f R columns_arg mem p 0 k (Nat.zero_le _) (fun i _ hi => hp i hi)

/-- C4: with a nullable result type every body execution `k` of a run stores
twice, in this order: field 0 of the contract's (composite) result to the
result data cell of row `k`, then the byte 1 or 0, 1 exactly when the result's
is-null flag is set, to the result null cell of row `k`.  At `end` the null
cell of each row below `R` holds that byte, hence 0 or 1, and the data cell
that scalar, provided the result's data and null cells do not overlap. -/
theorem compileFunction.nullable_result_stores (w : Nat) (f : IFunctionBaseImpl) (R fuel : Nat)
    (columns_arg : Nat → ColumnData) (mem : Mem)
    (hf : f.WellShaped) (hn : f.getResultType.isNullable = true)
    (hR : 1 ≤ R) (hw : R < 2 ^ w) (hfuel : R ≤ fuel) :
    ∃ its mem', run w f fuel R columns_arg mem = .ok (its, mem')
      ∧ its.length = R
      ∧ ∀ k, k < R → ∃ it, its[k]? = some it
          ∧ it.result = f.compile it.arguments
          ∧ it.result = Value.composite it.result.payload it.result.isNull
          ∧ it.stores
              = [((columns_arg f.getArgumentTypes.length).data.gep k, it.result.payload),
                 ((columns_arg f.getArgumentTypes.length).null.gep k,
                    if it.result.isNull then 1 else 0)]
          ∧ ((∀ i, k < i → i < R →
                (columns_arg f.getArgumentTypes.length).data.gep i
                  ≠ (columns_arg f.getArgumentTypes.length).null.gep k) →
              mem' ((columns_arg f.getArgumentTypes.length).null.gep k)
                  = (if it.result.isNull then 1 else 0)
              ∧ (mem' ((columns_arg f.getArgumentTypes.length).null.gep k) = 0
                  ∨ mem' ((columns_arg f.getArgumentTypes.length).null.gep k) = 1))
          ∧ ((∀ i, k ≤ i → i < R →
                (columns_arg f.getArgumentTypes.length).null.gep i
                  ≠ (columns_arg f.getArgumentTypes.length).data.gep k) →
              mem' ((columns_arg f.getArgumentTypes.length).data.gep k)
                  = it.result.payload) := by
  obtain ⟨its, mem', hrun, hlen, hrows, hmem⟩ := run_rows hf R fuel columns_arg mem hR hw hfuel
  refine ⟨its, mem', hrun, hlen, ?_⟩
  intro k hk
  obtain ⟨it, hit⟩ : ∃ it, its[k]? = some it :=
    ⟨its[k], List.getElem?_eq_getElem (by omega)⟩
  obtain ⟨_, rfl⟩ := hrows k it hit
  obtain ⟨hargs, hres, hstores⟩ := record_at w f R columns_arg mem k
  have hshape : (f.compile (rowArguments f columns_arg k
      (headerAt w f (start w f R columns_arg mem) k).mem)).isComposite = true := by
    rw [← hn, ← arguments_at w f R columns_arg mem k]
    exact hf _ (arguments_shape ((entry_slotsMatch f columns_arg).headerAt k) _)
  refine ⟨_, hit, ?_, ?_, ?_, ?_, ?_⟩
  · rw [hres, hargs]
  · rw [hres]
    revert hshape
    cases f.compile (rowArguments f columns_arg k
      (headerAt w f (start w f R columns_arg mem) k).mem) <;>
      simp [Value.isComposite, Value.payload, Value.isNull]
  · rw [hstores, hres]
    simp [hn]
  · intro hsep
    have := final_null w f R columns_arg mem k hk hn hsep
    rw [hmem, hres, this]
    refine ⟨rfl, ?_⟩
    split <;> simp
  · intro hsep
    rw [hmem, hres]
    exact final_data w f R columns_arg mem k hk (fun _ => hsep)

/-! ## Lemmas: contracts over non-nullable types -/

theorem Value.scalars_of_not_composite (args : List Value)
    (h : ∀ a ∈ args, a.isComposite = false) :
    args = (args.map Value.payload).map Value.scalar := by
  induction args with
  | nil => rfl
  | cons a rest ih =>
    have ha := h a (List.mem_cons_self _ _)
    have hrest := ih (fun b hb => h b (List.mem_cons_of_mem _ hb))
    cases a with
    | scalar v =>
      simp only [List.map_cons, Value.payload]
      rw [← hrest]
    | composite v b => simp [Value.isComposite] at ha

/-- A contract over non-nullable types that maps scalars to a scalar honours
its declared types. -/
theorem IFunctionBaseImpl.wellShaped_of_scalar (f : IFunctionBaseImpl) (op : List Int → Int)
    (hargs : ∀ t ∈ f.getArgumentTypes, t.isNullable = false)
    (hres : f.getResultType.isNullable = false)
    (hop : ∀ xs : List Int, xs.length = f.getArgumentTypes.length →
      f.compile (xs.map Value.scalar) = Value.scalar (op xs)) :
    f.WellShaped := by
  intro args hshape
  have hlen : args.length = f.getArgumentTypes.length := by
    have := congrArg List.length hshape
    simpa using this
  have hall : ∀ a ∈ args, a.isComposite = false := by
    intro a ha
    obtain ⟨n, hn, hget⟩ := List.mem_iff_getElem.mp ha
    have h1 : (args.map Value.isComposite)[n]? = some a.isComposite := by
      rw [List.getElem?_map, List.getElem?_eq_getElem hn, hget]
      rfl
    rw [hshape, List.getElem?_map, List.getElem?_eq_getElem (by omega)] at h1
    simp only [Option.map_some', Option.some.injEq] at h1
    rw [← h1]
    exact hargs _ (List.getElem_mem _)
  rw [Value.scalars_of_not_composite args hall, hop _ (by simpa using hlen), hres]
  rfl

theorem compileFunction.rowArguments_scalar (f : IFunctionBaseImpl)
    (columns_arg : Nat → ColumnData) (k : Nat) (m : Mem)
    (hargs : ∀ t ∈ f.getArgumentTypes, t.isNullable = false) :
    rowArguments f columns_arg k m
      = ((List.range f.getArgumentTypes.length).map
          (fun a => m ((columns_arg a).data.gep k))).map Value.scalar := by
  unfold rowArguments
  rw [List.map_map]
  apply List.map_congr_left
  intro i hi
  have hi2 : i < f.getArgumentTypes.length := List.mem_range.mp hi
  have hmem : slotType f i ∈ f.getArgumentTypes :=
    List.getElem?_mem (slotType_arg f i hi2)
  simp [rowValue, hargs _ hmem]

theorem compileFunction.mem_argumentCells (f : IFunctionBaseImpl)
    (columns_arg : Nat → ColumnData) (k : Nat) (q : Ptr) :
    q ∈ argumentCells f columns_arg k ↔
      ∃ a, a < f.getArgumentTypes.length
        ∧ (q = (columns_arg a).data.gep k
           ∨ ((slotType f a).isNullable = true ∧ q = (columns_arg a).null.gep k)) := by
  unfold argumentCells
  rw [List.mem_flatMap]
  constructor
  · rintro ⟨a, ha, hq⟩
    refine ⟨a, List.mem_range.mp ha, ?_⟩
    revert hq
    cases h : (slotType f a).isNullable <;> simp
  · rintro ⟨a, ha, hq⟩
    refine ⟨a, List.mem_range.mpr ha, ?_⟩
    revert hq
    cases h : (slotType f a).isNullable <;> simp

/-! ## Non-nullable rows -/

/-- C2: over non-nullable argument types and a non-nullable result type, with a
contract whose per-row operation is `op`, a run on `R ≥ 1` rows executes the
body `R` times and leaves `op` of the `i`-th elements of the argument buffers
in the `i`-th element of the result buffer, for every `i < R` (no result
element may be an argument element of a later row).  For "add 1" every output
row is the input row plus one; addition over `[1, 2, 3]` and `[10, 20, 30]`
gives `[11, 22, 33]`. -/
theorem compileFunction.non_nullable_rows :
    (∀ (w : Nat) (f : IFunctionBaseImpl) (op : List Int → Int) (R fuel : Nat)
        (columns_arg : Nat → ColumnData) (mem : Mem),
        (∀ t ∈ f.getArgumentTypes, t.isNullable = false) →
        f.getResultType.isNullable = false →
        (∀ xs : List Int, xs.length = f.getArgumentTypes.length →
          f.compile (xs.map Value.scalar) = Value.scalar (op xs)) →
        1 ≤ R → R < 2 ^ w → R ≤ fuel →
        (∀ a i j, a < f.getArgumentTypes.length → i < j → j < R →
          (columns_arg f.getArgumentTypes.length).data.gep i ≠ (columns_arg a).data.gep j) →
        ∃ its mem', run w f fuel R columns_arg mem = .ok (its, mem')
          ∧ its.length = R
          ∧ ∀ i, i < R →
              mem' ((columns_arg f.getArgumentTypes.length).data.gep i)
                = op ((List.range f.getArgumentTypes.length).map
                        (fun a => mem ((columns_arg a).data.gep i))))
    ∧ (∀ (w R fuel : Nat) (columns_arg : Nat → ColumnData) (mem : Mem),
        1 ≤ R → R < 2 ^ w → R ≤ fuel →
        (∀ i j, i < j → j < R → (columns_arg 1).data.gep i ≠ (columns_arg 0).data.gep j) →
        ∃ its mem', run w addOneContract fuel R columns_arg mem = .ok (its, mem')
          ∧ its.length = R
          ∧ ∀ i, i < R →
              mem' ((columns_arg 1).data.gep i) = mem ((columns_arg 0).data.gep i) + 1)
    ∧ (∃ its mem', run 64 plusContract 3 3 scenarioColumns plusMem = .ok (its, mem')
          ∧ its.length = 3
          ∧ [mem' ((scenarioColumns 2).data.gep 0), mem' ((scenarioColumns 2).data.gep 1),
             mem' ((scenarioColumns 2).data.gep 2)] = [11, 22, 33]) := by
  have general : ∀ (w : Nat) (f : IFunctionBaseImpl) (op : List Int → Int) (R fuel : Nat)
      (columns_arg : Nat → ColumnData) (mem : Mem),
      (∀ t ∈ f.getArgumentTypes, t.isNullable = false) →
      f.getResultType.isNullable = false →
      (∀ xs : List Int, xs.length = f.getArgumentTypes.length →
        f.compile (xs.map Value.scalar) = Value.scalar (op xs)) →
      1 ≤ R → R < 2 ^ w → R ≤ fuel →
      (∀ a i j, a < f.getArgumentTypes.length → i < j → j < R →
        (columns_arg f.getArgumentTypes.length).data.gep i ≠ (columns_arg a).data.gep j) →
      ∃ its mem', run w f fuel R columns_arg mem = .ok (its, mem')
        ∧ its.length = R
        ∧ ∀ i, i < R →
            mem' ((columns_arg f.getArgumentTypes.length).data.gep i)
              = op ((List.range f.getArgumentTypes.length).map
                      (fun a => mem ((columns_arg a).data.gep i))) := by
    intro w f op R fuel columns_arg mem hargs hres hop hR hw hfuel hsep
    have hf := f.wellShaped_of_scalar op hargs hres hop
    obtain ⟨its, mem', hrun, hlen, _, hmem⟩ := run_rows hf R fuel columns_arg mem hR hw hfuel
    refine ⟨its, mem', hrun, hlen, ?_⟩
    intro i hi
    rw [hmem, final_data w f R columns_arg mem i hi (by rw [hres]; intro h; cases h)]
    rw [rowArguments_initial, rowArguments_scalar f columns_arg i mem hargs, hop _ (by simp)]
    · rfl
    · intro i' hi' p hp hq
      rw [mem_resultCells] at hp
      rw [mem_argumentCells] at hq
      obtain ⟨a, ha, hq⟩ := hq
      have hna : (slotType f a).isNullable = false :=
        hargs _ (List.getElem?_mem (slotType_arg f a ha))
      rcases hp with hp | ⟨hn, _⟩
      · rcases hq with hq | ⟨hn2, _⟩
        · exact hsep a i' i ha hi' hi (hp.symm.trans hq)
        · rw [hna] at hn2
          cases hn2
      · rw [hres] at hn
        cases hn
  refine ⟨general, ?_, ?_⟩
  · intro w R fuel columns_arg mem hR hw hfuel hsep
    obtain ⟨its, mem', hrun, hlen, hrows⟩ :=
      general w addOneContract (fun xs => xs.headD 0 + 1) R fuel columns_arg mem
        (by simp [addOneContract, DataType.isNullable]) rfl
        (by
          intro xs hxs
          match xs, hxs with
          | [x], _ => rfl)
        hR hw hfuel
        (by
          intro a i j ha hij hj
          have : a = 0 := by simp [addOneContract] at ha; exact ha
          subst this
          exact hsep i j hij hj)
    refine ⟨its, mem', hrun, hlen, ?_⟩
    intro i hi
    have := hrows i hi
    simpa [addOneContract] using this
  · exact ⟨_, _, rfl, rfl, rfl⟩

/-! ## The identity contract -/

theorem identityContract_wellShaped (t : DataType) : (identityContract t).WellShaped := by
  intro args hshape
  match args, hshape with
  | [a], h =>
    simp only [identityContract, List.map_cons, List.map_nil, DataType.isNullable,
      List.cons.injEq, and_true] at h
    simpa [identityContract, DataType.isNullable] using h
  | [], h => simp [identityContract] at h
  | _ :: _ :: _, h => simp [identityContract] at h

theorem compileFunction.rowArguments_identity (t : DataType) (columns_arg : Nat → ColumnData)
    (k : Nat) (m : Mem) :
    rowArguments (identityContract t) columns_arg k m
      = [Value.composite (m ((columns_arg 0).data.gep k))
          (decide (m ((columns_arg 0).null.gep k) ≠ 0))] := by
  simp [rowArguments, identityContract, rowValue, slotType, DataType.isNullable, List.range_succ]

/-- C5: the identity contract over one nullable argument with a nullable result
copies, for every row `i < R`, the argument's scalar to the result data buffer
(so in particular for the rows that are not null) and writes a result null byte
that is non-zero exactly when the argument's null byte is, provided the result
buffers do not overlap each other nor an argument cell of a later row.  On
`[(5, false), (0, true), (7, false)]` the result null bytes are `[0, 1, 0]` and
the scalars of rows 0 and 2 are 5 and 7. -/
theorem compileFunction.identity_rows :
    (∀ (w : Nat) (t : DataType) (R fuel : Nat) (columns_arg : Nat → ColumnData) (mem : Mem),
        1 ≤ R → R < 2 ^ w → R ≤ fuel →
        (∀ i j, i < R → j < R → (columns_arg 1).data.gep i ≠ (columns_arg 1).null.gep j) →
        (∀ i j, i < j → j < R →
          (columns_arg 1).data.gep i ≠ (columns_arg 0).data.gep j
          ∧ (columns_arg 1).data.gep i ≠ (columns_arg 0).null.gep j
          ∧ (columns_arg 1).null.gep i ≠ (columns_arg 0).data.gep j
          ∧ (columns_arg 1).null.gep i ≠ (columns_arg 0).null.gep j) →
        ∃ its mem', run w (identityContract t) fuel R columns_arg mem = .ok (its, mem')
          ∧ its.length = R
          ∧ ∀ i, i < R →
              (mem' ((columns_arg 1).null.gep i) ≠ 0 ↔ mem ((columns_arg 0).null.gep i) ≠ 0)
              ∧ (mem' ((columns_arg 1).null.gep i) = 0 ∨ mem' ((columns_arg 1).null.gep i) = 1)
              ∧ mem' ((columns_arg 1).data.gep i) = mem ((columns_arg 0).data.gep i))
    ∧ (∃ its mem',
        run 64 (identityContract (.plain 0)) 3 3 scenarioColumns identityMem = .ok (its, mem')
          ∧ its.length = 3
          ∧ [mem' ((scenarioColumns 1).null.gep 0), mem' ((scenarioColumns 1).null.gep 1),
             mem' ((scenarioColumns 1).null.gep 2)] = [0, 1, 0]
          ∧ [mem' ((scenarioColumns 1).data.gep 0), mem' ((scenarioColumns 1).data.gep 2)]
              = [5, 7]) := by
  refine ⟨?_, ⟨_, _, rfl, rfl, rfl, rfl⟩⟩
  intro w t R fuel columns_arg mem hR hw hfuel hres hsep
  have hf := identityContract_wellShaped t
  obtain ⟨its, mem', hrun, hlen, _, hmem⟩ := run_rows hf R fuel columns_arg mem hR hw hfuel
  refine ⟨its, mem', hrun, hlen, ?_⟩
  intro i hi
  have hinit : rowArguments (identityContract t) columns_arg i
      (headerAt w (identityContract t) (start w (identityContract t) R columns_arg mem) i).mem
      = rowArguments (identityContract t) columns_arg i mem := by
    apply rowArguments_initial
    intro i' hi' p hp hq
    rw [mem_resultCells] at hp
    rw [mem_argumentCells] at hq
    obtain ⟨a, ha, hq⟩ := hq
    have ha0 : a = 0 := by simp [identityContract] at ha; exact ha
    subst ha0
    obtain ⟨h1, h2, h3, h4⟩ := hsep i' i hi' hi
    have hN : (identityContract t).getArgumentTypes.length = 1 := rfl
    rw [hN] at hp
    rcases hp with hp | ⟨_, hp⟩ <;> rcases hq with hq | ⟨_, hq⟩
    · exact h1 (hp.symm.trans hq)
    · exact h2 (hp.symm.trans hq)
    · exact h3 (hp.symm.trans hq)
    · exact h4 (hp.symm.trans hq)
  have hnull := final_null w (identityContract t) R columns_arg mem i hi rfl
    (fun j _ hj => hres j i hj hi)
  have hdata := final_data w (identityContract t) R columns_arg mem i hi
    (fun _ j _ hj => (hres i j hi hj).symm)
  rw [hinit, rowArguments_identity] at hnull hdata
  have hN : (identityContract t).getArgumentTypes.length = 1 := rfl
  rw [hN] at hnull hdata
  rw [hmem, hnull, hdata]
  simp only [identityContract, Value.isNull, Value.payload]
  by_cases h0 : mem ((columns_arg 0).null.gep i) = 0 <;> simp [h0]

/-! ## Determinism -/

/-- The content of a cell after a list of stores is decided by its content
before and the stores. -/
theorem Mem.storeAll_agree (stores : List (Ptr × Int)) (m₁ m₂ : Mem) (q : Ptr)
    (h : m₁ q = m₂ q ∨ q ∈ stores.map Prod.fst) :
    Mem.storeAll m₁ stores q = Mem.storeAll m₂ stores q := by
  induction stores generalizing m₁ m₂ with
  | nil =>
    rcases h with h | h
    · exact h
    · simp at h
  | cons s rest ih =>
    simp only [Mem.storeAll]
    apply ih
    by_cases hq : q = s.1
    · left
      simp [Mem.store, hq]
    · rcases h with h | h
      · left
        simp [Mem.store, hq, h]
      · right
        simp only [List.map_cons, List.mem_cons] at h
        rcases h with h | h
        · exact absurd h hq
        · exact h

/-- Two runs of one function from memories that agree on the argument cells of
the rows below `R` agree, at every header `k ≤ R`, on those cells and on the
result cells written so far, and row for row on arguments and stores. -/
theorem compileFunction.headers_agree (w : Nat) (f : IFunctionBaseImpl) (R : Nat)
    (columns_arg : Nat → ColumnData) (mem₁ mem₂ : Mem)
    (hin : ∀ k, k < R → ∀ p ∈ argumentCells f columns_arg k, mem₁ p = mem₂ p) :
    ∀ k, k ≤ R → ∀ q : Ptr,
      ((∃ j, j < R ∧ q ∈ argumentCells f columns_arg j)
        ∨ (∃ i, i < k ∧ q ∈ resultCells f columns_arg i)) →
      (headerAt w f (start w f R columns_arg mem₁) k).mem q
        = (headerAt w f (start w f R columns_arg mem₂) k).mem q := by
  intro k
  induction k with
  | zero =>
    intro _ q hq
    rcases hq with ⟨j, hj, hq⟩ | ⟨i, hi, _⟩
    · exact hin j hj q hq
    · omega
  | succ k ih =>
    intro hk q hq
    have ihk := ih (by omega)
    have hargs : rowArguments f columns_arg k
          (headerAt w f (start w f R columns_arg mem₁) k).mem
        = rowArguments f columns_arg k
          (headerAt w f (start w f R columns_arg mem₂) k).mem :=
      rowArguments_congr f columns_arg k _ _
        (fun p hp => ihk p (Or.inl ⟨k, by omega, hp⟩))
    have hstores : (record f (headerAt w f (start w f R columns_arg mem₁) k)).stores
        = (record f (headerAt w f (start w f R columns_arg mem₂) k)).stores := by
      rw [(record_at w f R columns_arg mem₁ k).2.2, (record_at w f R columns_arg mem₂ k).2.2,
        hargs]
    rw [mem_succ, mem_succ, hstores]
    apply Mem.storeAll_agree
    rcases hq with hq | ⟨i, hi, hq⟩
    · exact Or.inl (ihk q (Or.inl hq))
    · by_cases hik : i = k
      · subst hik
        right
        rw [stores_cells]
        exact hq
      · exact Or.inl (ihk q (Or.inr ⟨i, by omega, hq⟩))

theorem compileFunction.records_agree (w : Nat) (f : IFunctionBaseImpl) (R : Nat)
    (columns_arg : Nat → ColumnData) (mem₁ mem₂ : Mem)
    (hin : ∀ k, k < R → ∀ p ∈ argumentCells f columns_arg k, mem₁ p = mem₂ p)
    (k : Nat) (hk : k < R) :
    let r₁ := record f (headerAt w f (start w f R columns_arg mem₁) k)
    let r₂ := record f (headerAt w f (start w f R columns_arg mem₂) k)
    (r₁.arguments, r₁.result, r₁.stores) = (r₂.arguments, r₂.result, r₂.stores) := by
  intro r₁ r₂
  have hargs : rowArguments f columns_arg k
        (headerAt w f (start w f R columns_arg mem₁) k).mem
      = rowArguments f columns_arg k
        (headerAt w f (start w f R columns_arg mem₂) k).mem :=
    rowArguments_congr f columns_arg k _ _
      (fun p hp => headers_agree w f R columns_arg mem₁ mem₂ hin k (by omega) p
        (Or.inl ⟨k, hk, hp⟩))
  obtain ⟨a1, b1, c1⟩ := record_at w f R columns_arg mem₁ k
  obtain ⟨a2, b2, c2⟩ := record_at w f R columns_arg mem₂ k
  simp only [r₁, r₂]
  rw [a1, a2, b1, b2, c1, c2, hargs]

/-- The generated function does not depend on the contract's name. -/
theorem compileFunction.loop_congr (w : Nat) (f₁ f₂ : IFunctionBaseImpl)
    (hty : f₁.getArgumentTypes = f₂.getArgumentTypes)
    (hc : f₁.compile = f₂.compile)
    (fuel : Nat) (st : LoopState) : loop w f₁ fuel st = loop w f₂ fuel st := by
  induction fuel generalizing st with
  | zero => rfl
  | succ fuel ih =>
    have hbody : ∀ s, loopBody w f₁ s = loopBody w f₂ s := by
      intro s
      simp only [loopBody, hty, hc]
    simp only [loop, hbody, ih]

theorem compileFunction.run_congr (w : Nat) (f₁ f₂ : IFunctionBaseImpl)
    (hty : f₁.getArgumentTypes = f₂.getArgumentTypes)
    (hrt : f₁.getResultType = f₂.getResultType) (hc : f₁.compile = f₂.compile)
    (fuel R : Nat) (columns_arg : Nat → ColumnData) (mem : Mem) :
    run w f₁ fuel R columns_arg mem = run w f₂ fuel R columns_arg mem := by
  have hentry : entry f₁ columns_arg = entry f₂ columns_arg := by
    simp only [entry, slotType, hty, hrt]
  simp only [run, hentry, loop_congr w f₁ f₂ hty hc]

/-- C10: two functions generated from one contract (the same argument types,
result type and per-row operation), run on the same row count `R ≥ 1` and
descriptors from memories that agree on the argument cells of the rows below
`R`, both reach `end`, pass the same Values to the contract and perform the same
stores row for row, and leave the same content in every result cell of the
rows below `R`; from identical memories they leave identical memories. -/
theorem compileFunction.deterministic (w : Nat) (f₁ f₂ : IFunctionBaseImpl)
    (R fuel₁ fuel₂ : Nat) (columns_arg : Nat → ColumnData) (mem₁ mem₂ : Mem)
    (hf : f₁.WellShaped)
    (hty : f₁.getArgumentTypes = f₂.getArgumentTypes)
    (hrt : f₁.getResultType = f₂.getResultType) (hc : f₁.compile = f₂.compile)
    (hR : 1 ≤ R) (hw : R < 2 ^ w) (hfuel₁ : R ≤ fuel₁) (hfuel₂ : R ≤ fuel₂)
    (hin : ∀ k, k < R → ∀ p ∈ argumentCells f₁ columns_arg k, mem₁ p = mem₂ p) :
    ∃ its₁ mem₁' its₂ mem₂',
      run w f₁ fuel₁ R columns_arg mem₁ = .ok (its₁, mem₁')
      ∧ run w f₂ fuel₂ R columns_arg mem₂ = .ok (its₂, mem₂')
      ∧ its₁.length = R ∧ its₂.length = R
      ∧ its₁.map (fun it => (it.arguments, it.result, it.stores))
          = its₂.map (fun it => (it.arguments, it.result, it.stores))
      ∧ (∀ k, k < R → ∀ p ∈ resultCells f₁ columns_arg k, mem₁' p = mem₂' p)
      ∧ (mem₁ = mem₂ → mem₁' = mem₂') := by
  have h₁ := run_eq hf R fuel₁ columns_arg mem₁ hR hw hfuel₁
  have h₂ := run_eq hf R fuel₂ columns_arg mem₂ hR hw hfuel₂
  rw [run_congr w f₁ f₂ hty hrt hc] at h₂
  refine ⟨_, _, _, _, h₁, h₂, ?_, ?_, ?_, ?_, ?_⟩
  · simp
  · simp
  · rw [List.map_map, List.map_map]
    apply List.map_congr_left
    intro k hk
    exact records_agree w f₁ R columns_arg mem₁ mem₂ hin k (List.mem_range.mp hk)
  · intro k hk p hp
    exact headers_agree w f₁ R columns_arg mem₁ mem₂ hin R (le_refl _) p (Or.inr ⟨k, hk, hp⟩)
  · intro h
    rw [h]

/-! ## Slots of the entry block and the column accessor -/

/-- C9: the `entry` block sets up exactly one slot per argument plus one for
the result, slot `i` being typed by the `i`-th type of "argument types, then
the result type": its data pointer is field 0 of descriptor `i`, pointing to
the native type of the declared type with nullability removed, and it has a
null pointer, field 1 of descriptor `i`, exactly when the declared type is
nullable. -/
theorem compileFunction.entry_slots (f : IFunctionBaseImpl) (columns_arg : Nat → ColumnData) :
    (entry f columns_arg).length = f.getArgumentTypes.length + 1
    ∧ (f.getArgumentTypes ++ [f.getResultType])[f.getArgumentTypes.length]?
        = some f.getResultType
    ∧ ∀ (i : Nat) (t : DataType), (f.getArgumentTypes ++ [f.getResultType])[i]? = some t →
        ∃ col : ColumnDataPlaceholder, (entry f columns_arg)[i]? = some col
          ∧ col.data_init = ⟨(columns_arg i).data, IRType.toNativeType (removeNullable t)⟩
          ∧ col.null_init
              = (if t.isNullable then some ⟨(columns_arg i).null, IRType.int8⟩ else none)
          ∧ (col.null_init.isSome = true ↔ t.isNullable = true)
          ∧ col.data = col.data_init ∧ col.null = col.null_init := by
  refine ⟨entry_length f columns_arg, ?_, ?_⟩
  · rw [List.getElem?_append_right (le_refl _)]
    simp
  · intro i t hi
    rw [← slotTypes f, List.getElem?_map] at hi
    have hlt : i < f.getArgumentTypes.length + 1 := by
      by_contra hc
      rw [List.getElem?_eq_none (by simp; omega)] at hi
      simp at hi
    rw [List.getElem?_range hlt] at hi
    simp only [Option.map_some', Option.some.injEq] at hi
    subst hi
    refine ⟨slot (slotType f i) (columns_arg i), ?_, rfl, rfl, ?_, rfl, rfl⟩
    · unfold entry
      rw [List.getElem?_map, List.getElem?_range hlt]
      rfl
    · simp only [slot]
      cases (slotType f i).isNullable <;> simp

/-- C6: `getColumnData` fails, with `LOGICAL_ERROR`, exactly on a constant
column, and returns a `ColumnData` for every other column. -/
theorem getColumnData_const (column : IColumn) :
    ((∃ e, getColumnData column = .error e) ↔ isColumnConst column = true)
    ∧ ((∃ message, getColumnData column = .error ⟨ErrorCodes.LOGICAL_ERROR, message⟩)
        ↔ ∃ raw data, column = IColumn.const raw data)
    ∧ ((∃ result, getColumnData column = .ok result) ↔ isColumnConst column = false) := by
  cases column with
  | plain raw => simp [getColumnData, isColumnConst, typeid_cast_ColumnNullable]
  | const raw data => simp [getColumnData, isColumnConst]
  | nullable raw nested null_map =>
    simp [getColumnData, isColumnConst, typeid_cast_ColumnNullable]

/-- C7: on a nullable column `getColumnData` returns the raw pointer of the
null map as `null` and the raw pointer of the nested column, whatever that
column is, as `data`; on a column that is neither constant nor nullable it
returns the column's own raw pointer as `data` and the null pointer as `null`. -/
theorem getColumnData_pointers :
    (∀ raw nested null_map,
        getColumnData (IColumn.nullable raw nested null_map)
          = .ok { data := nested.getRawData, null := null_map.getRawData })
    ∧ (∀ raw, getColumnData (IColumn.plain raw) = .ok { data := raw, null := nullptr })
    ∧ (∀ column result, getColumnData column = .ok result →
        (typeid_cast_ColumnNullable column = none →
          result.data = column.getRawData ∧ result.null = nullptr)
        ∧ (∀ null_map nested, typeid_cast_ColumnNullable column = some (null_map, nested) →
          result.data = nested.getRawData ∧ result.null = null_map.getRawData)) := by
  refine ⟨fun _ _ _ => rfl, fun _ => rfl, ?_⟩
  intro column result h
  cases column with
  | plain raw =>
    simp only [getColumnData, isColumnConst, typeid_cast_ColumnNullable] at h
    simp at h
    subst h
    simp [typeid_cast_ColumnNullable, IColumn.getRawData]
  | const raw data => simp [getColumnData, isColumnConst] at h
  | nullable raw nested null_map =>
    simp only [getColumnData, isColumnConst, typeid_cast_ColumnNullable] at h
    simp at h
    subst h
    simp [typeid_cast_ColumnNullable]

/-! ## Witnesses -/

theorem plusContract_wellShaped : plusContract.WellShaped :=
  plusContract.wellShaped_of_scalar
    (fun xs => match xs with
      | [a, b] => a + b
      | _ => 0)
    (by simp [plusContract, DataType.isNullable]) rfl
    (by
      intro xs hxs
      match xs, hxs with
      | [a, b], _ => rfl)

/-- Witness of C1 at the boundary `R = 1`: the body runs once. -/
theorem compileFunction.loop_trip_count_witness :
    plusContract.WellShaped ∧ 1 ≤ 1 ∧ 1 < 2 ^ 64 ∧ 1 ≤ 5
    ∧ ∃ its mem', run 64 plusContract 5 1 scenarioColumns plusMem = .ok (its, mem')
        ∧ its.length = 1 := by
  obtain ⟨its, mem', hrun, hlen, _⟩ :=
    loop_trip_count 64 plusContract 1 5 scenarioColumns plusMem plusContract_wellShaped
      (by decide) (by decide) (by decide)
  exact ⟨plusContract_wellShaped, by decide, by decide, by decide, its, mem', hrun, hlen⟩

/-- Witness of C2: the general statement at integer addition over three rows. -/
theorem compileFunction.non_nullable_rows_witness :
    (∀ t ∈ plusContract.getArgumentTypes, t.isNullable = false)
    ∧ plusContract.getResultType.isNullable = false
    ∧ (1 ≤ 3 ∧ 3 < 2 ^ 64 ∧ 3 ≤ 3)
    ∧ (∀ a i j, a < 2 → i < j → j < 3 →
        (scenarioColumns 2).data.gep i ≠ (scenarioColumns a).data.gep j)
    ∧ ∃ its mem', run 64 plusContract 3 3 scenarioColumns plusMem = .ok (its, mem')
        ∧ its.length = 3
        ∧ ∀ i, i < 3 → mem' ((scenarioColumns 2).data.gep i)
            = plusMem ((scenarioColumns 0).data.gep i) + plusMem ((scenarioColumns 1).data.gep i) := by
  have hsep : ∀ a i j, a < 2 → i < j → j < 3 →
      (scenarioColumns 2).data.gep i ≠ (scenarioColumns a).data.gep j := by
    intro a i j ha _ _ h
    simp only [scenarioColumns, Ptr.gep, Ptr.mk.injEq] at h
    omega
  have hty : ∀ t ∈ plusContract.getArgumentTypes, t.isNullable = false := by
    simp [plusContract, DataType.isNullable]
  obtain ⟨its, mem', hrun, hlen, hrows⟩ :=
    non_nullable_rows.1 64 plusContract
      (fun xs => match xs with
        | [a, b] => a + b
        | _ => 0)
      3 3 scenarioColumns plusMem hty rfl
      (by
        intro xs hxs
        match xs, hxs with
        | [a, b], _ => rfl)
      (by decide) (by decide) (by decide) hsep
  refine ⟨hty, rfl, ⟨by decide, by decide, by decide⟩, hsep, its, mem', hrun, hlen, ?_⟩
  intro i hi
  exact hrows i hi

/-- Witness of C3: the identity contract over three nullable rows. -/
theorem compileFunction.argument_values_witness :
    (identityContract (.plain 0)).WellShaped ∧ (1 ≤ 3 ∧ 3 < 2 ^ 64 ∧ 3 ≤ 3)
    ∧ ∃ its mem',
        run 64 (identityContract (.plain 0)) 3 3 scenarioColumns identityMem = .ok (its, mem')
        ∧ its.map (fun it => it.arguments)
            = [[Value.composite 5 false], [Value.composite 0 true], [Value.composite 7 false]] := by
  obtain ⟨its, mem', hrun, _, _⟩ :=
    argument_values 64 (identityContract (.plain 0)) 3 3 scenarioColumns identityMem
      (identityContract_wellShaped _) (by decide) (by decide) (by decide)
  refine ⟨identityContract_wellShaped _, ⟨by decide, by decide, by decide⟩, its, mem', hrun, ?_⟩
  have h2 : run 64 (identityContract (.plain 0)) 3 3 scenarioColumns identityMem
      = .ok (its, mem') := hrun
  have h3 := run_eq (identityContract_wellShaped (.plain 0)) 3 3 scenarioColumns identityMem
    (by decide) (by decide : 3 < 2 ^ 64) (by decide)
  rw [h3] at h2
  injection h2 with h2
  injection h2 with h4 _
  rw [← h4]
  rfl


/-- Witness of C4: the identity contract over three nullable rows writes the
null bytes 0, 1, 0. -/
theorem compileFunction.nullable_result_stores_witness :
    (identityContract (.plain 0)).WellShaped
    ∧ (identityContract (.plain 0)).getResultType.isNullable = true
    ∧ (1 ≤ 3 ∧ 3 < 2 ^ 64 ∧ 3 ≤ 3)
    ∧ ∃ its mem',
        run 64 (identityContract (.plain 0)) 3 3 scenarioColumns identityMem = .ok (its, mem')
        ∧ its.length = 3
        ∧ ∃ it, its[1]? = some it
            ∧ it.stores = [((scenarioColumns 1).data.gep 1, it.result.payload),
                           ((scenarioColumns 1).null.gep 1, if it.result.isNull then 1 else 0)] := by
  obtain ⟨its, mem', hrun, hlen, hrows⟩ :=
    nullable_result_stores 64 (identityContract (.plain 0)) 3 3 scenarioColumns identityMem
      (identityContract_wellShaped _) rfl (by decide) (by decide) (by decide)
  obtain ⟨it, hit, _, _, hstores, _⟩ := hrows 1 (by decide)
  exact ⟨identityContract_wellShaped _, rfl, ⟨by decide, by decide, by decide⟩,
    its, mem', hrun, hlen, it, hit, hstores⟩

/-- Witness of C5: the general statement at the scenario's descriptors. -/
theorem compileFunction.identity_rows_witness :
    (1 ≤ 3 ∧ 3 < 2 ^ 64 ∧ 3 ≤ 3)
    ∧ (∀ i j, i < 3 → j < 3 →
        (scenarioColumns 1).data.gep i ≠ (scenarioColumns 1).null.gep j)
    ∧ ∃ its mem',
        run 64 (identityContract (.plain 0)) 3 3 scenarioColumns identityMem = .ok (its, mem')
        ∧ its.length = 3
        ∧ ∀ i, i < 3 →
            (mem' ((scenarioColumns 1).null.gep i) ≠ 0
              ↔ identityMem ((scenarioColumns 0).null.gep i) ≠ 0)
            ∧ mem' ((scenarioColumns 1).data.gep i)
                = identityMem ((scenarioColumns 0).data.gep i) := by
  have hres : ∀ i j, i < 3 → j < 3 →
      (scenarioColumns 1).data.gep i ≠ (scenarioColumns 1).null.gep j := by
    intro i j _ _ h
    simp [scenarioColumns, Ptr.gep] at h
  obtain ⟨its, mem', hrun, hlen, hrows⟩ :=
    identity_rows.1 64 (.plain 0) 3 3 scenarioColumns identityMem
      (by decide) (by decide) (by decide) hres
      (by
        intro i j _ _
        simp [scenarioColumns, Ptr.gep])
  exact ⟨⟨by decide, by decide, by decide⟩, hres, its, mem', hrun, hlen,
    fun i hi => ⟨(hrows i hi).1, (hrows i hi).2.2⟩⟩

/-- Witness of C8: addition over three rows leaves the argument buffers and the
fourth result element as they were. -/
theorem compileFunction.stores_only_result_rows_witness :
    plusContract.WellShaped ∧ (1 ≤ 3 ∧ 3 < 2 ^ 64 ∧ 3 ≤ 3)
    ∧ ∃ its mem', run 64 plusContract 3 3 scenarioColumns plusMem = .ok (its, mem')
        ∧ mem' ((scenarioColumns 0).data.gep 1) = 2
        ∧ mem' ((scenarioColumns 1).data.gep 2) = 30
        ∧ mem' ((scenarioColumns 2).data.gep 3) = plusMem ((scenarioColumns 2).data.gep 3) := by
  obtain ⟨its, mem', hrun, _, hframe, hbeyond, _⟩ :=
    stores_only_result_rows 64 plusContract 3 3 scenarioColumns plusMem plusContract_wellShaped
      (by decide) (by decide) (by decide)
  refine ⟨plusContract_wellShaped, ⟨by decide, by decide, by decide⟩, its, mem', hrun, ?_, ?_, ?_⟩
  · rw [hframe]
    · rfl
    · intro i _ h
      simp [scenarioColumns, Ptr.gep, plusContract] at h
    · intro h
      cases h
  · rw [hframe]
    · rfl
    · intro i _ h
      simp [scenarioColumns, Ptr.gep, plusContract] at h
    · intro h
      cases h
  · exact hbeyond 3 (by decide) (by intro h; cases h)

/-- Witness of C10: addition compiled twice (under two names), run with
different fuel from memories that differ in the result buffer only. -/
theorem compileFunction.deterministic_witness :
    plusContract.WellShaped ∧ (1 ≤ 3 ∧ 3 < 2 ^ 64 ∧ 3 ≤ 3 ∧ 3 ≤ 7)
    ∧ (∀ k, k < 3 → ∀ p ∈ argumentCells plusContract scenarioColumns k,
        plusMem p = Mem.store plusMem ((scenarioColumns 2).data.gep 0) 77 p)
    ∧ ∃ its₁ mem₁' its₂ mem₂',
        run 64 plusContract 3 3 scenarioColumns plusMem = .ok (its₁, mem₁')
        ∧ run 64 { plusContract with getName := "plus_again" } 7 3 scenarioColumns
            (Mem.store plusMem ((scenarioColumns 2).data.gep 0) 77) = .ok (its₂, mem₂')
        ∧ ∀ k, k < 3 → mem₁' ((scenarioColumns 2).data.gep k)
            = mem₂' ((scenarioColumns 2).data.gep k) := by
  have hin : ∀ k, k < 3 → ∀ p ∈ argumentCells plusContract scenarioColumns k,
      plusMem p = Mem.store plusMem ((scenarioColumns 2).data.gep 0) 77 p := by
    intro k _ p hp
    rw [mem_argumentCells] at hp
    obtain ⟨a, ha, hp⟩ := hp
    have ha2 : a < 2 := ha
    have hne : p ≠ (scenarioColumns 2).data.gep 0 := by
      rcases hp with hp | ⟨hn, _⟩
      · rw [hp]
        intro h
        simp only [scenarioColumns, Ptr.gep, Ptr.mk.injEq] at h
        omega
      · have hmem : slotType plusContract a ∈ plusContract.getArgumentTypes :=
          List.getElem?_mem (slotType_arg plusContract a ha)
        have : (slotType plusContract a).isNullable = false := by
          revert hmem
          generalize slotType plusContract a = t
          simp [plusContract]
          rintro rfl
          rfl
        rw [this] at hn
        cases hn
    rw [Mem.store_other _ _ _ _ hne]
  obtain ⟨its₁, mem₁', its₂, mem₂', h₁, h₂, _, _, _, hres, _⟩ :=
    deterministic 64 plusContract { plusContract with getName := "plus_again" } 3 3 7
      scenarioColumns plusMem (Mem.store plusMem ((scenarioColumns 2).data.gep 0) 77)
      plusContract_wellShaped rfl rfl rfl (by decide) (by decide) (by decide) (by decide) hin
  refine ⟨plusContract_wellShaped, ⟨by decide, by decide, by decide, by decide⟩, hin,
    its₁, mem₁', its₂, mem₂', h₁, h₂, ?_⟩
  intro k hk
  apply hres k hk
  rw [mem_resultCells]
  exact Or.inl rfl

/-! ## The row count zero -/

/-- With less fuel than the counter asks for, the loop does not reach `end`. -/
theorem compileFunction.loop_outOfFuel {w : Nat} {f : IFunctionBaseImpl} (hf : f.WellShaped) :
    ∀ (fuel n : Nat) (st : LoopState), SlotsMatch f st.columns →
      st.counter_phi = n + 1 → n + 1 < 2 ^ w → fuel ≤ n →
      loop w f fuel st = .error .outOfFuel := by
  intro fuel
  induction fuel with
  | zero => intro n st _ _ _ _; rfl
  | succ fuel ih =>
    intro n st hs hc hw hfuel
    obtain ⟨m, rfl⟩ : ∃ m, n = m + 1 := ⟨n - 1, by omega⟩
    have hnext : (next w f st).counter_phi = m + 1 := by
      simp only [next]
      rw [hc, decrement_eq (by omega) hw]
      omega
    have hrec := ih m (next w f st) hs.advance hnext (show m + 1 < 2 ^ w by omega) (by omega)
    have hne : st.counter_phi ≠ 1 := by omega
    simp only [loop, loopBody_ok hf hs, hne, hrec, ne_eq, not_false_eq_true, if_true]

theorem compileFunction.decrement_zero (w : Nat) : decrement w 0 = 2 ^ w - 1 := by
  unfold decrement
  have : 1 ≤ 2 ^ w := Nat.one_le_two_pow
  rw [Nat.zero_add, Nat.mod_eq_of_lt (by omega)]

theorem compileFunction.two_le_two_pow {w : Nat} (hw : 1 ≤ w) : 2 ≤ 2 ^ w := by
  calc 2 = 2 ^ 1 := rfl
    _ ≤ 2 ^ w := Nat.pow_le_pow_right (by decide) hw

/-- Closed form of a run on the row count 0: the body runs from the header
states `0 … 2^w - 1`. -/
theorem compileFunction.run_zero_eq {w : Nat} {f : IFunctionBaseImpl} (hf : f.WellShaped)
    (hw : 1 ≤ w) (fuel : Nat) (columns_arg : Nat → ColumnData) (mem : Mem)
    (hfuel : 2 ^ w ≤ fuel) :
    run w f fuel 0 columns_arg mem
      = .ok ((List.range (2 ^ w)).map
               (fun k => record f (headerAt w f (start w f 0 columns_arg mem) k)),
             (headerAt w f (start w f 0 columns_arg mem) (2 ^ w)).mem) := by
  have h2 := two_le_two_pow hw
  obtain ⟨fuel, rfl⟩ : ∃ g, fuel = g + 1 := ⟨fuel - 1, by omega⟩
  obtain ⟨n, hn⟩ : ∃ n, 2 ^ w = n + 1 + 1 := ⟨2 ^ w - 2, by omega⟩
  have hs : SlotsMatch f (start w f 0 columns_arg mem).columns := entry_slotsMatch f columns_arg
  have hc0 : (start w f 0 columns_arg mem).counter_phi = 0 := by simp [start]
  have hnext : (next w f (start w f 0 columns_arg mem)).counter_phi = n + 1 := by
    simp only [next, hc0]
    rw [decrement_zero w]
    omega
  have hrec := loop_eq hf n fuel (next w f (start w f 0 columns_arg mem)) hs.advance hnext
    (show n + 1 < 2 ^ w by omega) (by omega)
  have hne : (start w f 0 columns_arg mem).counter_phi ≠ 1 := by omega
  show loop w f (fuel + 1) (start w f 0 columns_arg mem) = _
  simp only [loop, loopBody_ok hf hs, hne, hrec, ne_eq, not_false_eq_true, if_true]
  rw [hn, List.range_succ_eq_map (n + 1)]
  simp only [List.map_cons, List.map_map, headerAt]
  congr 2
  · congr 1
    apply List.map_congr_left
    intro k _
    simp only [Function.comp, Nat.succ_eq_add_one]
    rw [headerAt_succ_next]
  · show (headerAt w f (next w f (start w f 0 columns_arg mem)) (n + 1)).mem
      = (headerAt w f (start w f 0 columns_arg mem) (n + 1 + 1)).mem
    rw [headerAt_succ_next w f _ (n + 1)]

theorem compileFunction.run_zero_outOfFuel {w : Nat} {f : IFunctionBaseImpl} (hf : f.WellShaped)
    (hw : 1 ≤ w) (fuel : Nat) (columns_arg : Nat → ColumnData) (mem : Mem)
    (hfuel : fuel < 2 ^ w) :
    run w f fuel 0 columns_arg mem = .error .outOfFuel := by
  have h2 := two_le_two_pow hw
  cases fuel with
  | zero => rfl
  | succ fuel =>
    obtain ⟨n, hn⟩ : ∃ n, 2 ^ w = n + 1 + 1 := ⟨2 ^ w - 2, by omega⟩
    have hs : SlotsMatch f (start w f 0 columns_arg mem).columns :=
      entry_slotsMatch f columns_arg
    have hc0 : (start w f 0 columns_arg mem).counter_phi = 0 := by simp [start]
    have hnext : (next w f (start w f 0 columns_arg mem)).counter_phi = n + 1 := by
      simp only [next, hc0]
      rw [decrement_zero w]
      omega
    have hrec := loop_outOfFuel hf fuel n (next w f (start w f 0 columns_arg mem)) hs.advance
      hnext (show n + 1 < 2 ^ w by omega) (by omega)
    have hne : (start w f 0 columns_arg mem).counter_phi ≠ 1 := by omega
    show loop w f (fuel + 1) (start w f 0 columns_arg mem) = _
    simp only [loop, loopBody_ok hf hs, hne, hrec, ne_eq, not_false_eq_true, if_true]

/-- The counter at the header of the `k`-th execution of a run on the row count 0. -/
theorem compileFunction.zero_counter {w : Nat} (f : IFunctionBaseImpl) (hw : 1 ≤ w)
    (columns_arg : Nat → ColumnData) (mem : Mem) (k : Nat) (hk : k < 2 ^ w) :
    (headerAt w f (start w f 0 columns_arg mem) k).counter_phi
      = if k = 0 then 0 else 2 ^ w - k := by
  have h2 := two_le_two_pow hw
  cases k with
  | zero => simp [headerAt, start]
  | succ k =>
    have hnext : (next w f (start w f 0 columns_arg mem)).counter_phi = 2 ^ w - 1 := by
      simp only [next, start, Nat.zero_mod]
      exact decrement_zero w
    rw [headerAt_succ_next, headerAt_counter f _ (by omega) k (by omega), hnext]
    simp
    omega

/-- C11: on the row count 0 the generated loop is not empty.  With a `w`-bit
counter (`w ≥ 1`) the body runs for row 0 first, the exit test sees the counter
0 there and branches back, and the loop goes on over the rows
`1, 2, …` with the counters `2^w - 1, 2^w - 2, …`, reading and storing at
pointers advanced by the row number whatever the buffers hold, until the
counter is 1: `end` is reached after exactly `2^w` executions of the body,
and not with fewer. -/
theorem compileFunction.zero_rows (w : Nat) (f : IFunctionBaseImpl)
    (columns_arg : Nat → ColumnData) (mem : Mem) (hf : f.WellShaped) (hw : 1 ≤ w) :
    (∀ fuel, 2 ^ w ≤ fuel →
      ∃ its mem', run w f fuel 0 columns_arg mem = .ok (its, mem')
        ∧ its.length = 2 ^ w
        ∧ 1 < its.length
        ∧ ∀ k it, its[k]? = some it →
            it.counter_phi = (if k = 0 then 0 else 2 ^ w - k)
            ∧ (it.counter_phi ≠ 1 ↔ k + 1 < 2 ^ w)
            ∧ it.arguments = rowArguments f columns_arg k it.mem
            ∧ it.stores.map Prod.fst = resultCells f columns_arg k)
    ∧ (∀ fuel, fuel < 2 ^ w → run w f fuel 0 columns_arg mem = .error .outOfFuel) := by
  have h2 := two_le_two_pow hw
  refine ⟨?_, fun fuel hfuel => run_zero_outOfFuel hf hw fuel columns_arg mem hfuel⟩
  intro fuel hfuel
  refine ⟨_, _, run_zero_eq hf hw fuel columns_arg mem hfuel, by simp, by simp; omega, ?_⟩
  intro k it hit
  rw [List.getElem?_map] at hit
  have hk : k < 2 ^ w := by
    by_contra hc
    rw [List.getElem?_eq_none (by simp; omega)] at hit
    simp at hit
  rw [List.getElem?_range hk] at hit
  simp only [Option.map_some', Option.some.injEq] at hit
  subst hit
  have hcnt := zero_counter f hw columns_arg mem k hk
  refine ⟨hcnt, ?_, (record_at w f 0 columns_arg mem k).1, stores_cells w f 0 columns_arg mem k⟩
  show (headerAt w f (start w f 0 columns_arg mem) k).counter_phi ≠ 1 ↔ _
  rw [hcnt]
  by_cases h0 : k = 0
  · subst h0
    simp
    omega
  · simp only [h0, if_false]
    omega

/-- Witness of C11 on a 3-bit counter: eight executions of the body. -/
theorem compileFunction.zero_rows_witness :
    plusContract.WellShaped ∧ 1 ≤ 3
    ∧ (∃ its mem', run 3 plusContract 8 0 scenarioColumns plusMem = .ok (its, mem')
        ∧ its.length = 8)
    ∧ run 3 plusContract 7 0 scenarioColumns plusMem = .error .outOfFuel := by
  have h := zero_rows 3 plusContract scenarioColumns plusMem plusContract_wellShaped (by decide)
  obtain ⟨its, mem', hrun, hlen, _⟩ := h.1 8 (by decide)
  exact ⟨plusContract_wellShaped, by decide, ⟨its, mem', hrun, hlen⟩, h.2 7 (by decide)⟩

/-! ## The loop-carried state -/

/-- C12: at the start of the `k`-th execution of the body (`k < R`, `R ≥ 1`)
the counter phi holds `R - k` and every slot's phi nodes hold the slot's first-row
pointers advanced by `k` elements (the null pointer where there is one), the
first-row pointers themselves being those of the `entry` block; so the
arguments are read and the result is stored at row `k` in all buffers. -/
theorem compileFunction.loop_carried_state (w : Nat) (f : IFunctionBaseImpl) (R fuel : Nat)
    (columns_arg : Nat → ColumnData) (mem : Mem)
    (hf : f.WellShaped) (hR : 1 ≤ R) (hw : R < 2 ^ w) (hfuel : R ≤ fuel) :
    ∃ its mem', run w f fuel R columns_arg mem = .ok (its, mem')
      ∧ its.length = R
      ∧ ∀ k it, its[k]? = some it →
          it.counter_phi = R - k
          ∧ it.columns.length = f.getArgumentTypes.length + 1
          ∧ (∀ (i : Nat) (col : ColumnDataPlaceholder), it.columns[i]? = some col →
              ∃ col₀, (entry f columns_arg)[i]? = some col₀
                ∧ col.data_init = col₀.data_init ∧ col.null_init = col₀.null_init
                ∧ col.data = col₀.data_init.gep k
                ∧ col.null = col₀.null_init.map (fun p => p.gep k))
          ∧ it.arguments = rowArguments f columns_arg k it.mem
          ∧ it.stores.map Prod.fst = resultCells f columns_arg k := by
  obtain ⟨its, mem', hrun, hlen, hrows, _⟩ := run_rows hf R fuel columns_arg mem hR hw hfuel
  refine ⟨its, mem', hrun, hlen, ?_⟩
  intro k it hit
  obtain ⟨hk, rfl⟩ := hrows k it hit
  refine ⟨?_, ?_, ?_, (record_at w f R columns_arg mem k).1,
    stores_cells w f R columns_arg mem k⟩
  · show (headerAt w f (start w f R columns_arg mem) k).counter_phi = R - k
    rw [headerAt_counter f _ (by simp [start, Nat.mod_eq_of_lt hw]; exact hw) k
      (by simp [start, Nat.mod_eq_of_lt hw]; exact hk)]
    simp [start, Nat.mod_eq_of_lt hw]
  · show (headerAt w f (start w f R columns_arg mem) k).columns.length = _
    rw [start_columns_range]
    simp
  · intro i col hcol
    obtain ⟨hi, rfl⟩ := column_at w f R columns_arg mem k i col hcol
    refine ⟨slot (slotType f i) (columns_arg i), ?_, rfl, rfl, rfl, rfl⟩
    unfold entry
    rw [List.getElem?_map, List.getElem?_range (by omega)]
    rfl

/-- Witness of C12: addition over three rows; the third execution starts with
the counter 1 and the result pointer two elements past its first row. -/
theorem compileFunction.loop_carried_state_witness :
    plusContract.WellShaped ∧ (1 ≤ 3 ∧ 3 < 2 ^ 64 ∧ 3 ≤ 3)
    ∧ ∃ its mem', run 64 plusContract 3 3 scenarioColumns plusMem = .ok (its, mem')
        ∧ ∃ it, its[2]? = some it ∧ it.counter_phi = 1
          ∧ ∃ col, it.columns[2]? = some col
              ∧ col.data.addr = (scenarioColumns 2).data.gep 2 := by
  obtain ⟨its, mem', hrun, hlen, hrows⟩ :=
    loop_carried_state 64 plusContract 3 3 scenarioColumns plusMem plusContract_wellShaped
      (by decide) (by decide) (by decide)
  obtain ⟨it, hit⟩ : ∃ it, its[2]? = some it :=
    ⟨its[2], List.getElem?_eq_getElem (by omega)⟩
  obtain ⟨hcnt, hclen, hcols, _⟩ := hrows 2 it hit
  have hlt : 2 < it.columns.length := by rw [hclen]; decide
  obtain ⟨col, hcol⟩ : ∃ col, it.columns[2]? = some col :=
    ⟨it.columns[2], List.getElem?_eq_getElem hlt⟩
  obtain ⟨col₀, h0, _, _, hdata, _⟩ := hcols 2 col hcol
  refine ⟨plusContract_wellShaped, ⟨by decide, by decide, by decide⟩, its, mem', hrun, it, hit,
    hcnt, col, hcol, ?_⟩
  have : col₀ = slot (slotType plusContract 2) (scenarioColumns 2) := by
    have h1 : (entry plusContract scenarioColumns)[2]?
        = some (slot (slotType plusContract 2) (scenarioColumns 2)) := rfl
    rw [h1] at h0
    exact (Option.some.inj h0).symm
  rw [hdata, this]
  rfl

/-! ## Shape of the contract's result -/

/-- The run-time model of the result stores is the execution of the stores the
generator emits. -/
theorem compileFunction.resultStores_eq_exec (back : ColumnDataPlaceholder) (result : Value) :
    resultStores back result = execResultStores result (emitResultStores back) := by
  unfold resultStores emitResultStores
  cases back.null <;> cases result <;> rfl

theorem compileFunction.resultStores_mismatch (back : ColumnDataPlaceholder) (result : Value)
    (h : result.isComposite ≠ back.null.isSome) :
    resultStores back result = .error .undefined := by
  unfold resultStores
  cases hb : back.null <;> cases result <;> simp_all [Value.isComposite]

/-- The slot `columns.back()` of the `entry` block. -/
theorem compileFunction.entry_getLast (f : IFunctionBaseImpl) (columns_arg : Nat → ColumnData) :
    (entry f columns_arg).getLast?
      = some (slot f.getResultType (columns_arg f.getArgumentTypes.length)) := by
  rw [entry_split, List.getLast?_concat]

/-- Counterexample to C13 as stated: for a contract that declares a nullable
result and returns a bare scalar (and for one that declares a non-nullable
result and returns a composite) the generator emits the stores all the same
and leaves the function in the module, and the function it generated faults on
its first row. -/
theorem compileFunction.shape_validation_counterexample :
    (bareScalarContract.compile [Value.scalar 1]).isComposite = false
    ∧ bareScalarContract.getResultType.isNullable = true
    ∧ emitResultStores (slot bareScalarContract.getResultType (scenarioColumns 1))
        = [⟨ResultOperand.extractValue0, ⟨(scenarioColumns 1).data, IRType.toNativeType (.plain 0)⟩⟩,
           ⟨ResultOperand.selectExtractValue1, ⟨(scenarioColumns 1).null, IRType.int8⟩⟩]
    ∧ run 64 bareScalarContract 1 1 scenarioColumns plusMem = .error .undefined
    ∧ (strayCompositeContract.compile [Value.scalar 1]).isComposite = true
    ∧ strayCompositeContract.getResultType.isNullable = false
    ∧ emitResultStores (slot strayCompositeContract.getResultType (scenarioColumns 1))
        = [⟨ResultOperand.result, ⟨(scenarioColumns 1).data, IRType.toNativeType (.plain 0)⟩⟩]
    ∧ run 64 strayCompositeContract 1 1 scenarioColumns plusMem = .error .undefined
    ∧ (intoModule bareScalarContract ⟨[]⟩ ⟨0, 0, 0⟩).1.functions = ["bareScalar"]
    ∧ (intoModule strayCompositeContract ⟨[]⟩ ⟨0, 0, 0⟩).1.functions = ["strayComposite"] := by
  refine ⟨rfl, rfl, rfl, rfl, rfl, rfl, rfl, rfl, rfl, rfl⟩

/-- C13, amended: `compileFunction` does not look at the shape of the Value the
contract returns.  For every result slot it emits the stores chosen by the
slot's null pointer alone (two stores reading fields 0 and 1 of the result when
there is one, one store of the result otherwise), never none; these stores
execute exactly when the Value is a composite for a slot with a null pointer
and a bare scalar for one without, and when the shape of the first row's result
disagrees with the nullability of the result type the generated function
faults in its first execution of the body. -/
theorem compileFunction.no_shape_validation (back : ColumnDataPlaceholder) (result : Value) :
    (emitResultStores back).length = (if back.null.isSome then 2 else 1)
    ∧ (emitResultStores back).map StoreInstr.ptr
        = (match back.null with
           | some null => [back.data, null]
           | none => [back.data])
    ∧ resultStores back result = execResultStores result (emitResultStores back)
    ∧ ((∃ stores, execResultStores result (emitResultStores back) = .ok stores)
        ↔ result.isComposite = back.null.isSome)
    ∧ (result.isComposite ≠ back.null.isSome →
        execResultStores result (emitResultStores back) = .error .undefined)
    ∧ (∀ (w : Nat) (f : IFunctionBaseImpl) (fuel R : Nat) (columns_arg : Nat → ColumnData)
        (mem : Mem), 0 < fuel →
        (f.compile (rowArguments f columns_arg 0 mem)).isComposite
          ≠ f.getResultType.isNullable →
        run w f fuel R columns_arg mem = .error .undefined) := by
  refine ⟨?_, ?_, resultStores_eq_exec back result, ?_, ?_, ?_⟩
  · unfold emitResultStores
    cases back.null <;> rfl
  · unfold emitResultStores
    cases back.null <;> rfl
  · rw [← resultStores_eq_exec]
    constructor
    · rintro ⟨stores, h⟩
      by_contra hne
      rw [resultStores_mismatch back result hne] at h
      cases h
    · intro h
      exact ⟨_, resultStores_ok back result h⟩
  · intro h
    rw [← resultStores_eq_exec]
    exact resultStores_mismatch back result h
  · intro w f fuel R columns_arg mem hfuel hne
    obtain ⟨fuel, rfl⟩ : ∃ g, fuel = g + 1 := ⟨fuel - 1, by omega⟩
    have hargs := arguments_at w f R columns_arg mem 0 mem
    have hlast : (start w f R columns_arg mem).columns.getLast?
        = some (slot f.getResultType (columns_arg f.getArgumentTypes.length)) :=
      entry_getLast f columns_arg
    have hslot : (slot f.getResultType (columns_arg f.getArgumentTypes.length)).null.isSome
        = f.getResultType.isNullable := by
      simp only [slot]
      cases f.getResultType.isNullable <;> rfl
    have hbody : loopBody w f (start w f R columns_arg mem) = .error .undefined := by
      have hst := resultStores_mismatch
        (slot f.getResultType (columns_arg f.getArgumentTypes.length))
        (f.compile (rowArguments f columns_arg 0 mem)) (by rw [hslot]; exact hne)
      have hargs' : arguments f.getArgumentTypes.length (start w f R columns_arg mem).columns
          (start w f R columns_arg mem).mem = rowArguments f columns_arg 0 mem := hargs
      simp only [loopBody, hlast, hargs', hst]
    show loop w f (fuel + 1) (start w f R columns_arg mem) = _
    simp only [loop, hbody]

/-! ## Profile events of a compilation -/

theorem ProfileEvents.increment_CompileFunction (events : ProfileEvents) (amount : Nat) :
    events.increment .CompileFunction amount
      = { events with CompileFunction := events.CompileFunction + amount } := rfl

/-- The events after the callback of `compileFunction` ran `n` times. -/
theorem compileFunction.intoModule_iterate (f : IFunctionBaseImpl) (n : Nat) (module : Module)
    (events : ProfileEvents) :
    (Nat.iterate (fun state : Module × ProfileEvents => intoModule f state.1 state.2) n
        (module, events)).2
      = { events with CompileFunction := events.CompileFunction + n } := by
  induction n generalizing module events with
  | zero => rfl
  | succ n ih =>
    rw [Function.iterate_succ_apply]
    refine (ih (intoModule f module events).1 (intoModule f module events).2).trans ?_
    simp only [intoModule, ProfileEvents.increment]
    rw [Nat.add_assoc, Nat.add_comm 1 n]

/-- C14: with a JIT backend that runs the module-building callback exactly once,
one call of `compileFunction(jit, f)` raises the `CompileFunction` counter by
exactly two, one increment made by the inner code generation (already there
when `compileModule` returns) and one by the outer function, raises the bytes
counter by the size of the compiled module, once, and the microseconds counter
by the stopwatch reading. -/
theorem compileFunction_counts_twice (jit : CHJIT) (f : IFunctionBaseImpl)
    (elapsedMicroseconds : Nat) (events : ProfileEvents) (h : jit.callbackCalls = 1) :
    (∀ module e, (intoModule f module e).2.CompileFunction = e.CompileFunction + 1)
    ∧ (jit.compileModule (fun state => intoModule f state.1 state.2) events).2.CompileFunction
        = events.CompileFunction + 1
    ∧ (compileFunction jit f elapsedMicroseconds events).2.CompileFunction
        = events.CompileFunction + 2
    ∧ (compileFunction jit f elapsedMicroseconds events).2.CompileExpressionsBytes
        = events.CompileExpressionsBytes
          + (compileFunction jit f elapsedMicroseconds events).1.size
    ∧ (compileFunction jit f elapsedMicroseconds events).1.size
        = jit.compiledSize ⟨[f.getName]⟩
    ∧ (compileFunction jit f elapsedMicroseconds events).2.CompileExpressionsMicroseconds
        = events.CompileExpressionsMicroseconds + elapsedMicroseconds := by
  have hit := intoModule_iterate f jit.callbackCalls ⟨[]⟩ events
  rw [h] at hit
  refine ⟨fun _ _ => rfl, ?_, ?_, ?_, ?_, ?_⟩
  · simp only [CHJIT.compileModule, h, hit]
  · simp only [compileFunction, CHJIT.compileModule, h, hit, ProfileEvents.increment]
  · simp only [compileFunction, CHJIT.compileModule, h, hit, ProfileEvents.increment]
  · simp only [compileFunction, CHJIT.compileModule, h]
    rfl
  · simp only [compileFunction, CHJIT.compileModule, h, hit, ProfileEvents.increment]

/-- Witness of C14: a backend that runs the callback once and reports 4096 bytes. -/
theorem compileFunction_counts_twice_witness :
    (⟨1, fun _ => 4096⟩ : CHJIT).callbackCalls = 1
    ∧ (compileFunction ⟨1, fun _ => 4096⟩ plusContract 250 ⟨10, 1000, 50000⟩).2.CompileFunction
        = 10 + 2
    ∧ compileFunction ⟨1, fun _ => 4096⟩ plusContract 250 ⟨10, 1000, 50000⟩
        = (⟨4096⟩, ⟨12, 1250, 54096⟩) :=
  ⟨rfl,
   (compileFunction_counts_twice ⟨1, fun _ => 4096⟩ plusContract 250 ⟨10, 1000, 50000⟩ rfl).2.2.1,
   rfl⟩

/-! ## File ranges of the streams -/

/-- Without wrap-around the range of stream `s` is
`[s * (F / M), F)` for the last stream and `[s * (F / M), (s + 1) * (F / M))`
for the others. -/
theorem ReadBufferFromFileLog.streamRange_eq (w F M s : Nat) (hM : 1 ≤ M) (hF : F < 2 ^ w)
    (hMw : M < 2 ^ w) (hs : s < M) :
    ReadBufferFromFileLog.streamRange w F s M
      = (s * (F / M), if s = M - 1 then F else (s + 1) * (F / M)) := by
  have hmul : M * (F / M) ≤ F := Nat.mul_div_le F M
  have h1 : s * (F / M) ≤ F :=
    le_trans (Nat.mul_le_mul_right _ (by omega)) hmul
  have h2 : (s + 1) * (F / M) ≤ F :=
    le_trans (Nat.mul_le_mul_right _ (by omega)) hmul
  have hM1 : (M + 2 ^ w - 1) % 2 ^ w = M - 1 := by
    have : M + 2 ^ w - 1 = (M - 1) + 2 ^ w := by omega
    rw [this, Nat.add_mod_right, Nat.mod_eq_of_lt (by omega)]
  simp only [ReadBufferFromFileLog.streamRange, hM1]
  rw [Nat.mod_eq_of_lt (lt_of_le_of_lt h1 hF), Nat.mod_eq_of_lt (show s + 1 < 2 ^ w by omega),
    Nat.mod_eq_of_lt (lt_of_le_of_lt h2 hF)]

/-- C15: for `F` files and `M ≥ 1` streams (both fitting the word) the ranges
`[start_s, end_s)` that `readNewRecords` computes for the streams
`s = 0 … M-1` are `[s * (F / M), (s + 1) * (F / M))`, up to `F` for the last
stream; each lies within `[0, F]`, an earlier stream's range ends where or
before a later one's starts, and every file index below `F` lies in the range
of exactly one stream. -/
theorem ReadBufferFromFileLog.streamRange_partition (w F M : Nat) (hM : 1 ≤ M)
    (hF : F < 2 ^ w) (hMw : M < 2 ^ w) :
    (∀ s, s < M →
      ReadBufferFromFileLog.streamRange w F s M
        = (s * (F / M), if s = M - 1 then F else (s + 1) * (F / M)))
    ∧ (∀ s, s < M →
        (ReadBufferFromFileLog.streamRange w F s M).1
          ≤ (ReadBufferFromFileLog.streamRange w F s M).2
        ∧ (ReadBufferFromFileLog.streamRange w F s M).2 ≤ F)
    ∧ (∀ s t, s < t → t < M →
        (ReadBufferFromFileLog.streamRange w F s M).2
          ≤ (ReadBufferFromFileLog.streamRange w F t M).1)
    ∧ (∀ i, i < F → ∃ s, s < M
        ∧ ((ReadBufferFromFileLog.streamRange w F s M).1 ≤ i
            ∧ i < (ReadBufferFromFileLog.streamRange w F s M).2)
        ∧ ∀ t, t < M →
            (ReadBufferFromFileLog.streamRange w F t M).1 ≤ i →
            i < (ReadBufferFromFileLog.streamRange w F t M).2 → t = s) := by
  have hmul : M * (F / M) ≤ F := Nat.mul_div_le F M
  have hle : ∀ s, s < M → s * (F / M) ≤ F := fun s hs =>
    le_trans (Nat.mul_le_mul_right _ (by omega)) hmul
  have hle1 : ∀ s, s < M → (s + 1) * (F / M) ≤ F := fun s hs =>
    le_trans (Nat.mul_le_mul_right _ (by omega)) hmul
  have heq := fun s hs => ReadBufferFromFileLog.streamRange_eq w F M s hM hF hMw hs
  have hbounds : ∀ s, s < M →
      (ReadBufferFromFileLog.streamRange w F s M).1
        ≤ (ReadBufferFromFileLog.streamRange w F s M).2
      ∧ (ReadBufferFromFileLog.streamRange w F s M).2 ≤ F := by
    intro s hs
    rw [heq s hs]
    by_cases hlast : s = M - 1
    · simp only [hlast, if_true]
      exact ⟨by rw [← hlast]; exact hle s hs, le_refl _⟩
    · simp only [hlast, if_false]
      exact ⟨Nat.mul_le_mul_right _ (by omega), hle1 s hs⟩
  have hmono : ∀ s t, s < t → t < M →
      (ReadBufferFromFileLog.streamRange w F s M).2
        ≤ (ReadBufferFromFileLog.streamRange w F t M).1 := by
    intro s t hst ht
    rw [heq s (by omega), heq t ht]
    have hlast : s ≠ M - 1 := by omega
    simp only [hlast, if_false]
    exact Nat.mul_le_mul_right _ (by omega)
  refine ⟨heq, hbounds, hmono, ?_⟩
  intro i hi
  -- the stream that reads file `i`
  have hex : ∃ s, s < M ∧ (ReadBufferFromFileLog.streamRange w F s M).1 ≤ i
      ∧ i < (ReadBufferFromFileLog.streamRange w F s M).2 := by
    by_cases hq : F / M = 0 ∨ M - 1 ≤ i / (F / M)
    · refine ⟨M - 1, by omega, ?_, ?_⟩
      · rw [heq (M - 1) (by omega)]
        rcases hq with hq | hq
        · simp [hq]
        · calc (M - 1) * (F / M) ≤ i / (F / M) * (F / M) := Nat.mul_le_mul_right _ hq
            _ ≤ i := Nat.div_mul_le_self i (F / M)
      · rw [heq (M - 1) (by omega)]
        simpa using hi
    · have hq : ¬ (F / M = 0) ∧ ¬ (M - 1 ≤ i / (F / M)) := not_or.mp hq
      obtain ⟨hpos, hlt⟩ := hq
      refine ⟨i / (F / M), by omega, ?_, ?_⟩
      · rw [heq _ (by omega)]
        exact Nat.div_mul_le_self i (F / M)
      · rw [heq _ (by omega)]
        have hne : i / (F / M) ≠ M - 1 := by omega
        simp only [hne, if_false]
        rw [Nat.mul_comm]
        exact Nat.lt_mul_div_succ i (Nat.pos_of_ne_zero hpos)
  obtain ⟨s, hs, hlo, hhi⟩ := hex
  refine ⟨s, hs, ⟨hlo, hhi⟩, ?_⟩
  intro t ht htlo hthi
  by_contra hne
  rcases Nat.lt_or_gt_of_ne hne with hlt | hgt
  · have := hmono t s hlt hs
    omega
  · have := hmono s t hgt ht
    omega

/-- Witness of C15: seven files over three streams are read as `[0, 2)`, `[2, 4)`
and `[4, 7)`. -/
theorem ReadBufferFromFileLog.streamRange_partition_witness :
    (1 ≤ 3 ∧ 7 < 2 ^ 64 ∧ 3 < 2 ^ 64)
    ∧ ReadBufferFromFileLog.streamRange 64 7 0 3 = (0, 2)
    ∧ ReadBufferFromFileLog.streamRange 64 7 1 3 = (2, 4)
    ∧ ReadBufferFromFileLog.streamRange 64 7 2 3 = (4, 7)
    ∧ ∀ i, i < 7 → ∃ s, s < 3
        ∧ ((ReadBufferFromFileLog.streamRange 64 7 s 3).1 ≤ i
            ∧ i < (ReadBufferFromFileLog.streamRange 64 7 s 3).2)
        ∧ ∀ t, t < 3 →
            (ReadBufferFromFileLog.streamRange 64 7 t 3).1 ≤ i →
            i < (ReadBufferFromFileLog.streamRange 64 7 t 3).2 → t = s :=
  ⟨⟨by decide, by decide, by decide⟩, by decide, by decide, by decide,
    (ReadBufferFromFileLog.streamRange_partition 64 7 3 (by decide) (by decide) (by decide)).2.2.2⟩

/-! ## Records appended by readNewRecords -/

/-- The `while` loop appends records, counts them, and stops at
`need_records_size`. -/
theorem ReadBufferFromFileLog.readNewRecords.whileLoop_appends {ρ : Type} (ops : StreamOps ρ)
    (file_name : String) (need last_open_end : Nat) :
    ∀ (fuel : Nat) (reader : ρ) (recs : List Record) (read : Nat),
      ∃ added : List Record,
        (whileLoop ops file_name need last_open_end fuel reader recs read).2.2.1 = recs ++ added
        ∧ (whileLoop ops file_name need last_open_end fuel reader recs read).2.2.2
            = read + added.length
        ∧ (read ≤ need →
            (whileLoop ops file_name need last_open_end fuel reader recs read).2.2.2 ≤ need) := by
  intro fuel
  induction fuel with
  | zero =>
    intro reader recs read
    exact ⟨[], by simp [whileLoop], by simp [whileLoop], by simp [whileLoop]⟩
  | succ fuel ih =>
    intro reader recs read
    unfold whileLoop
    by_cases hguard : read < need ∧ ops.tellg reader < last_open_end
    · by_cases hgood : ops.good reader = true
      · simp only [hguard, and_self, if_true, hgood, Bool.not_true, Bool.false_eq_true, if_false]
        obtain ⟨added, h1, h2, h3⟩ := ih (ops.getline reader).2
          (recs ++ [⟨file_name, ops.tellg reader, (ops.getline reader).1⟩]) (read + 1)
        refine ⟨⟨file_name, ops.tellg reader, (ops.getline reader).1⟩ :: added, ?_, ?_, ?_⟩
        · rw [h1]; simp
        · rw [h2]; simp; omega
        · intro _
          exact h3 (by omega)
      · simp only [hguard, and_self, if_true, hgood, Bool.not_false, if_true]
        exact ⟨[], by simp, by simp, fun h => h⟩
    · simp only [hguard, if_false]
      exact ⟨[], by simp, by simp, fun h => h⟩

/-- The body of the `for` loop appends records, counts them, and stops at
`need_records_size`. -/
theorem ReadBufferFromFileLog.readNewRecords.file_appends {ρ : Type} (ops : StreamOps ρ)
    (need end_ i : Nat) (v : ReadVars ρ) :
    ∃ added : List Record,
      (file ops need end_ i v).2.2.new_records = v.new_records ++ added
      ∧ (file ops need end_ i v).2.2.read_records_size = v.read_records_size + added.length
      ∧ (v.read_records_size ≤ need → (file ops need end_ i v).2.2.read_records_size ≤ need) := by
  have hrefl : ∃ added : List Record, v.new_records = v.new_records ++ added
      ∧ v.read_records_size = v.read_records_size + added.length
      ∧ (v.read_records_size ≤ need → v.read_records_size ≤ need) :=
    ⟨[], by simp, by simp, fun h => h⟩
  unfold file
  repeat' split
  all_goals first
    | exact hrefl
    | (dsimp only
       repeat' split
       all_goals exact whileLoop_appends ops _ need _ _ _ v.new_records v.read_records_size)

/-- The `for` loop appends records, counts them, and stops at
`need_records_size`. -/
theorem ReadBufferFromFileLog.readNewRecords.forLoop_appends {ρ : Type} (ops : StreamOps ρ)
    (need end_ : Nat) :
    ∀ (fuel i : Nat) (v : ReadVars ρ),
      ∃ added : List Record,
        (forLoop ops need end_ fuel i v).2.new_records = v.new_records ++ added
        ∧ (forLoop ops need end_ fuel i v).2.read_records_size
            = v.read_records_size + added.length
        ∧ (v.read_records_size ≤ need →
            (forLoop ops need end_ fuel i v).2.read_records_size ≤ need) := by
  intro fuel
  induction fuel with
  | zero =>
    intro i v
    exact ⟨[], by simp [forLoop], by simp [forLoop], by simp [forLoop]⟩
  | succ fuel ih =>
    intro i v
    obtain ⟨a₁, h1, h2, h3⟩ := file_appends ops need end_ i v
    unfold forLoop
    split
    · dsimp only
      split
      · exact ⟨a₁, h1, h2, h3⟩
      · split
        · exact ⟨a₁, h1, h2, h3⟩
        · obtain ⟨a₂, g1, g2, g3⟩ := ih (i + 1) (file ops need end_ i v).2.2
          refine ⟨a₁ ++ a₂, ?_, ?_, ?_⟩
          · rw [g1, h1, List.append_assoc]
          · rw [g2, h2, List.length_append]; omega
          · intro hle
            exact g3 (h3 hle)
    · exact ⟨[], by simp, by simp, fun h => h⟩

/-- What `readNewRecords` leaves of the members it does not write. -/
theorem ReadBufferFromFileLog.readNewRecords_members {ρ : Type} (w : Nat) (ops : StreamOps ρ)
    (self : ReadBufferFromFileLog ρ) (new_records : List Record) (batch_size_ : Nat) :
    (self.readNewRecords w ops new_records batch_size_).2.2.batch_size = self.batch_size
    ∧ (self.readNewRecords w ops new_records batch_size_).2.2.poll_timeout = self.poll_timeout
    ∧ (self.readNewRecords w ops new_records batch_size_).2.2.records = self.records
    ∧ (self.readNewRecords w ops new_records batch_size_).2.2.current = self.current
    ∧ (self.readNewRecords w ops new_records batch_size_).2.2.allowed = self.allowed := by
  unfold ReadBufferFromFileLog.readNewRecords
  by_cases h : self.max_streams_number = 0 <;> simp [h]

/-- The unsigned subtraction of line 98 without wrap-around. -/
theorem ReadBufferFromFileLog.need_records_size_eq (w n batch_size_ : Nat)
    (hn : n ≤ batch_size_) (hb : batch_size_ < 2 ^ w) :
    (batch_size_ + 2 ^ w - n) % 2 ^ w = batch_size_ - n := by
  have : batch_size_ + 2 ^ w - n = (batch_size_ - n) + 2 ^ w := by omega
  rw [this, Nat.add_mod_right, Nat.mod_eq_of_lt (by omega)]

/-- One call of `readNewRecords` appends at most `batch_size_ - new_records.size()`
records. -/
theorem ReadBufferFromFileLog.readNewRecords_appends {ρ : Type} (w : Nat) (ops : StreamOps ρ)
    (self : ReadBufferFromFileLog ρ) (new_records : List Record) (batch_size_ : Nat)
    (hn : new_records.length ≤ batch_size_) (hb : batch_size_ < 2 ^ w) :
    ∃ added : List Record,
      (self.readNewRecords w ops new_records batch_size_).2.1 = new_records ++ added
      ∧ added.length ≤ batch_size_ - new_records.length := by
  unfold ReadBufferFromFileLog.readNewRecords
  by_cases h : self.max_streams_number = 0
  · simp only [h, if_true]
    exact ⟨[], by simp, Nat.zero_le _⟩
  · simp only [h, if_false]
    rw [ReadBufferFromFileLog.need_records_size_eq w _ _ hn hb]
    obtain ⟨added, h1, h2, h3⟩ := readNewRecords.forLoop_appends ops
      (batch_size_ - new_records.length)
      (ReadBufferFromFileLog.streamRange w self.file_infos.file_names.length
        self.stream_number self.max_streams_number).2
      ((ReadBufferFromFileLog.streamRange w self.file_infos.file_names.length
        self.stream_number self.max_streams_number).2
        - (ReadBufferFromFileLog.streamRange w self.file_infos.file_names.length
        self.stream_number self.max_streams_number).1)
      (ReadBufferFromFileLog.streamRange w self.file_infos.file_names.length
        self.stream_number self.max_streams_number).1
      ⟨self.file_infos, self.stream_out, new_records, 0⟩
    refine ⟨added, h1, ?_⟩
    have := h3 (Nat.zero_le _)
    simp only [Nat.zero_add] at h2
    rw [h2] at this
    exact this

/-! ## The batch bound -/

/-- The wait loop keeps the members it does not write and, started with at
most `batch_size` records, returns at most `batch_size` records. -/
theorem ReadBufferFromFileLog.pollBatch.waitLoop_bound {ρ : Type} (w : Nat) (ops : StreamOps ρ)
    (batch_size_ : Nat) :
    ∀ (clock : List Nat) (new_records : List Record) (self : ReadBufferFromFileLog ρ),
      self.batch_size < 2 ^ w → new_records.length ≤ self.batch_size →
      ((waitLoop w ops batch_size_ clock new_records self).2.batch_size = self.batch_size
        ∧ (waitLoop w ops batch_size_ clock new_records self).2.records = self.records
        ∧ (waitLoop w ops batch_size_ clock new_records self).2.current = self.current
        ∧ (waitLoop w ops batch_size_ clock new_records self).2.allowed = self.allowed)
      ∧ ∀ recs, (waitLoop w ops batch_size_ clock new_records self).1 = .ok recs →
          recs.length ≤ self.batch_size := by
  intro clock
  induction clock with
  | nil =>
    intro new_records self _ hn
    refine ⟨⟨rfl, rfl, rfl, rfl⟩, ?_⟩
    intro recs h
    simp only [waitLoop, Except.ok.injEq] at h
    rw [← h]
    exact hn
  | cons elapsed clock ih =>
    intro new_records self hb hn
    obtain ⟨m1, m2, m3, m4, m5⟩ :=
      ReadBufferFromFileLog.readNewRecords_members w ops self new_records self.batch_size
    obtain ⟨added, ha1, ha2⟩ :=
      ReadBufferFromFileLog.readNewRecords_appends w ops self new_records self.batch_size hn hb
    have hlen : (self.readNewRecords w ops new_records self.batch_size).2.1.length
        ≤ self.batch_size := by
      rw [ha1, List.length_append]
      omega
    unfold waitLoop
    split
    · dsimp only
      split
      · refine ⟨⟨m1, m3, m4, m5⟩, ?_⟩
        intro recs h
        cases h
      · split
        · refine ⟨⟨m1, m3, m4, m5⟩, ?_⟩
          intro recs h
          simp only [Except.ok.injEq] at h
          rw [← h]
          exact hlen
        · obtain ⟨⟨i1, i2, i3, i4⟩, i5⟩ :=
            ih (self.readNewRecords w ops new_records self.batch_size).2.1
              (self.readNewRecords w ops new_records self.batch_size).2.2
              (by rw [m1]; exact hb) (by rw [m1]; exact hlen)
          refine ⟨⟨i1.trans m1, i2.trans m3, i3.trans m4, i4.trans m5⟩, ?_⟩
          intro recs h
          have := i5 recs h
          rw [m1] at this
          exact this
    · refine ⟨⟨rfl, rfl, rfl, rfl⟩, ?_⟩
      intro recs h
      simp only [Except.ok.injEq] at h
      rw [← h]
      exact hn

/-- The same for `pollBatch`, whatever its parameter `batch_size_` is. -/
theorem ReadBufferFromFileLog.pollBatch_bound {ρ : Type} (w : Nat) (ops : StreamOps ρ)
    (self : ReadBufferFromFileLog ρ) (batch_size_ : Nat) (clock : List Nat)
    (hb : self.batch_size < 2 ^ w) :
    ((self.pollBatch w ops batch_size_ clock).2.batch_size = self.batch_size
      ∧ (self.pollBatch w ops batch_size_ clock).2.records = self.records
      ∧ (self.pollBatch w ops batch_size_ clock).2.current = self.current
      ∧ (self.pollBatch w ops batch_size_ clock).2.allowed = self.allowed)
    ∧ ∀ recs, (self.pollBatch w ops batch_size_ clock).1 = .ok recs →
        recs.length ≤ self.batch_size := by
  obtain ⟨m1, m2, m3, m4, m5⟩ :=
    ReadBufferFromFileLog.readNewRecords_members w ops self [] self.batch_size
  obtain ⟨added, ha1, ha2⟩ :=
    ReadBufferFromFileLog.readNewRecords_appends w ops self [] self.batch_size
      (Nat.zero_le _) hb
  have hlen : (self.readNewRecords w ops [] self.batch_size).2.1.length ≤ self.batch_size := by
    rw [ha1, List.length_append]
    simp only [List.length_nil] at ha2 ⊢
    omega
  unfold ReadBufferFromFileLog.pollBatch
  dsimp only
  split
  · refine ⟨⟨m1, m3, m4, m5⟩, ?_⟩
    intro recs h
    cases h
  · split
    · refine ⟨⟨m1, m3, m4, m5⟩, ?_⟩
      intro recs h
      simp only [Except.ok.injEq] at h
      rw [← h]
      exact hlen
    · obtain ⟨⟨i1, i2, i3, i4⟩, i5⟩ :=
        pollBatch.waitLoop_bound w ops batch_size_ clock
          (self.readNewRecords w ops [] self.batch_size).2.1
          (self.readNewRecords w ops [] self.batch_size).2.2
          (by rw [m1]; exact hb) (by rw [m1]; exact hlen)
      refine ⟨⟨i1.trans m1, i2.trans m3, i3.trans m4, i4.trans m5⟩, ?_⟩
      intro recs h
      have := i5 recs h
      rw [m1] at this
      exact this

/-- C16: a call of `readNewRecords` with `new_records.size() ≤ batch_size_`
appends at most `batch_size_ - new_records.size()` records, the subtraction of
line 98 not wrapping, so the size stays within `batch_size_`; hence `pollBatch`,
called with the member `batch_size` as `poll` does, returns at most
`batch_size` records for every content of the files and every run of its wait
loop, and `poll` keeps `records.size() ≤ batch_size`. -/
theorem ReadBufferFromFileLog.batch_bound {ρ : Type} (w : Nat) (ops : StreamOps ρ)
    (self : ReadBufferFromFileLog ρ) (hb : self.batch_size < 2 ^ w) :
    (∀ (new_records : List Record) (batch_size_ : Nat),
        new_records.length ≤ batch_size_ → batch_size_ < 2 ^ w →
        (batch_size_ + 2 ^ w - new_records.length) % 2 ^ w = batch_size_ - new_records.length
        ∧ ∃ added : List Record,
            (self.readNewRecords w ops new_records batch_size_).2.1 = new_records ++ added
            ∧ added.length ≤ batch_size_ - new_records.length
            ∧ (self.readNewRecords w ops new_records batch_size_).2.1.length ≤ batch_size_)
    ∧ (∀ (clock : List Nat) (recs : List Record),
        (self.pollBatch w ops self.batch_size clock).1 = .ok recs →
        recs.length ≤ self.batch_size)
    ∧ (∀ clock : List Nat, self.records.length ≤ self.batch_size →
        (self.poll w ops clock).2.records.length ≤ self.batch_size
        ∧ (self.poll w ops clock).2.batch_size = self.batch_size) := by
  refine ⟨?_, ?_, ?_⟩
  · intro new_records batch_size_ hn hbs
    refine ⟨ReadBufferFromFileLog.need_records_size_eq w _ _ hn hbs, ?_⟩
    obtain ⟨added, h1, h2⟩ :=
      ReadBufferFromFileLog.readNewRecords_appends w ops self new_records batch_size_ hn hbs
    refine ⟨added, h1, h2, ?_⟩
    rw [h1, List.length_append]
    omega
  · intro clock recs h
    exact (ReadBufferFromFileLog.pollBatch_bound w ops self self.batch_size clock hb).2 recs h
  · intro clock hrec
    obtain ⟨⟨p1, p2, _, _⟩, p5⟩ := ReadBufferFromFileLog.pollBatch_bound w ops
      { self with buffer_status := BufferStatus.NO_RECORD_RETURNED } self.batch_size clock hb
    unfold ReadBufferFromFileLog.poll
    split
    · exact ⟨hrec, rfl⟩
    · dsimp only
      split
      · exact ⟨by rw [p2]; exact hrec, p1⟩
      · rename_i new_records hnew
        split
        · exact ⟨by rw [p2]; exact hrec, p1⟩
        · exact ⟨p5 new_records hnew, p1⟩

/-- Witness of C16: with a batch size of 2 the poll over files holding three
unread lines returns two records. -/
theorem ReadBufferFromFileLog.batch_bound_witness :
    (scenarioBuffer 2).batch_size < 2 ^ 64
    ∧ ((scenarioBuffer 2).pollBatch 64 LineReader.ops 2 [0, 1]).1
        = .ok [⟨"a.log", 0, "x"⟩, ⟨"a.log", 2, "yy"⟩]
    ∧ ∀ (clock : List Nat) (recs : List Record),
        ((scenarioBuffer 2).pollBatch 64 LineReader.ops (scenarioBuffer 2).batch_size clock).1
          = .ok recs → recs.length ≤ 2 :=
  ⟨by decide, rfl,
    (ReadBufferFromFileLog.batch_bound 64 LineReader.ops (scenarioBuffer 2) (by decide)).2.1⟩

/-! ## Lemmas: poll and nextImpl -/

theorem ReadBufferFromFileLog.pollBatch.waitLoop_members {ρ : Type} (w : Nat)
    (ops : StreamOps ρ) (batch_size_ : Nat) :
    ∀ (clock : List Nat) (new_records : List Record) (self : ReadBufferFromFileLog ρ),
      (waitLoop w ops batch_size_ clock new_records self).2.records = self.records
      ∧ (waitLoop w ops batch_size_ clock new_records self).2.current = self.current
      ∧ (waitLoop w ops batch_size_ clock new_records self).2.allowed = self.allowed := by
  intro clock
  induction clock with
  | nil => intro _ _; exact ⟨rfl, rfl, rfl⟩
  | cons elapsed clock ih =>
    intro new_records self
    obtain ⟨_, _, m3, m4, m5⟩ :=
      ReadBufferFromFileLog.readNewRecords_members w ops self new_records self.batch_size
    unfold waitLoop
    split
    · dsimp only
      split
      · exact ⟨m3, m4, m5⟩
      · split
        · exact ⟨m3, m4, m5⟩
        · obtain ⟨i2, i3, i4⟩ :=
            ih (self.readNewRecords w ops new_records self.batch_size).2.1
              (self.readNewRecords w ops new_records self.batch_size).2.2
          exact ⟨i2.trans m3, i3.trans m4, i4.trans m5⟩
    · exact ⟨rfl, rfl, rfl⟩

/-- What `pollBatch` leaves of the records, the cursor and the flag. -/
theorem ReadBufferFromFileLog.pollBatch_members {ρ : Type} (w : Nat) (ops : StreamOps ρ)
    (self : ReadBufferFromFileLog ρ) (batch_size_ : Nat) (clock : List Nat) :
    (self.pollBatch w ops batch_size_ clock).2.records = self.records
    ∧ (self.pollBatch w ops batch_size_ clock).2.current = self.current
    ∧ (self.pollBatch w ops batch_size_ clock).2.allowed = self.allowed := by
  obtain ⟨_, _, m3, m4, m5⟩ :=
    ReadBufferFromFileLog.readNewRecords_members w ops self [] self.batch_size
  unfold ReadBufferFromFileLog.pollBatch
  dsimp only
  split
  · exact ⟨m3, m4, m5⟩
  · split
    · exact ⟨m3, m4, m5⟩
    · obtain ⟨i2, i3, i4⟩ :=
        pollBatch.waitLoop_members w ops batch_size_ clock
          (self.readNewRecords w ops [] self.batch_size).2.1
          (self.readNewRecords w ops [] self.batch_size).2.2
      exact ⟨i2.trans m3, i3.trans m4, i4.trans m5⟩

/-- A `poll` that does not return true leaves `allowed`, the records and the
cursor as they are. -/
theorem ReadBufferFromFileLog.poll_not_true {ρ : Type} (w : Nat) (ops : StreamOps ρ)
    (self : ReadBufferFromFileLog ρ) (clock : List Nat)
    (h : (self.poll w ops clock).1 ≠ .ok true) :
    (self.poll w ops clock).2.allowed = self.allowed
    ∧ (self.poll w ops clock).2.records = self.records
    ∧ (self.poll w ops clock).2.current = self.current := by
  obtain ⟨p2, p3, p4⟩ := ReadBufferFromFileLog.pollBatch_members w ops
    { self with buffer_status := BufferStatus.NO_RECORD_RETURNED } self.batch_size clock
  revert h
  unfold ReadBufferFromFileLog.poll
  split
  · intro h
    exact absurd rfl h
  · dsimp only
    split
    · intro _
      exact ⟨p4, p2, p3⟩
    · split
      · intro _
        exact ⟨p4, p2, p3⟩
      · intro h
        exact absurd rfl h

/-- The cursor stays within the records over a `poll`. -/
theorem ReadBufferFromFileLog.poll_cursor {ρ : Type} (w : Nat) (ops : StreamOps ρ)
    (self : ReadBufferFromFileLog ρ) (clock : List Nat)
    (hcur : self.current ≤ self.records.length) :
    (self.poll w ops clock).2.current ≤ (self.poll w ops clock).2.records.length := by
  obtain ⟨p2, p3, _⟩ := ReadBufferFromFileLog.pollBatch_members w ops
    { self with buffer_status := BufferStatus.NO_RECORD_RETURNED } self.batch_size clock
  unfold ReadBufferFromFileLog.poll
  split
  · exact hcur
  · dsimp only
    split
    · rw [p2, p3]; exact hcur
    · split
      · rw [p2, p3]; exact hcur
      · exact Nat.zero_le _

theorem ReadBufferFromFileLog.nextImpl_not_allowed {ρ : Type} (self : ReadBufferFromFileLog ρ)
    (h : self.allowed = false) : self.nextImpl = (.ok false, self) := by
  simp [ReadBufferFromFileLog.nextImpl, h]

/-- What `nextImpl` does when the flag is set and the cursor is on a record. -/
theorem ReadBufferFromFileLog.nextImpl_exposes {ρ : Type} (self : ReadBufferFromFileLog ρ)
    (ha : self.allowed = true) (rec : Record) (hrec : self.records[self.current]? = some rec) :
    self.nextImpl
      = (.ok true,
          { self with
            working_buffer := some rec.data, allowed := false,
            current_file := rec.file_name, current_offset := rec.offset,
            current := self.current + 1 }) := by
  have hlt : self.current < self.records.length := by
    by_contra hc
    rw [List.getElem?_eq_none (by omega)] at hrec
    cases hrec
  have hne : self.current ≠ self.records.length := by omega
  simp [ReadBufferFromFileLog.nextImpl, ReadBufferFromFileLog.hasMorePolledRecords, ha, hne, hrec]

theorem ReadBufferFromFileLog.afterFailedPolls_allowed {ρ : Type} (w : Nat) (ops : StreamOps ρ) :
    ∀ (clocks : List (List Nat)) (self after : ReadBufferFromFileLog ρ),
      ReadBufferFromFileLog.afterFailedPolls w ops clocks self = some after →
      after.allowed = self.allowed := by
  intro clocks
  induction clocks with
  | nil =>
    intro self after h
    simp only [ReadBufferFromFileLog.afterFailedPolls, Option.some.injEq] at h
    rw [h]
  | cons clock rest ih =>
    intro self after h
    unfold ReadBufferFromFileLog.afterFailedPolls at h
    by_cases hp : (self.poll w ops clock).1 = .ok true
    · rw [hp] at h
      cases h
    · have hkeep := (ReadBufferFromFileLog.poll_not_true w ops self clock hp).1
      have h2 : ReadBufferFromFileLog.afterFailedPolls w ops rest (self.poll w ops clock).2
          = some after := by
        revert h
        split
        · rename_i heq
          exact absurd heq hp
        · exact id
      rw [ih _ _ h2, hkeep]

/-- One step of the consumer on a batch that has a record after the current
one: the cursor moves on by one and the flag is set again. -/
theorem ReadBufferFromFileLog.nextThenPoll_step {ρ : Type} (w : Nat) (ops : StreamOps ρ)
    (clock : List Nat) (self : ReadBufferFromFileLog ρ) (ha : self.allowed = true)
    (hmore : self.current + 1 < self.records.length) :
    (self.nextThenPoll w ops clock).records = self.records
    ∧ (self.nextThenPoll w ops clock).current = self.current + 1
    ∧ (self.nextThenPoll w ops clock).allowed = true
    ∧ (self.nextThenPoll w ops clock).file_infos = self.file_infos := by
  obtain ⟨rec, hrec⟩ : ∃ rec, self.records[self.current]? = some rec :=
    ⟨self.records[self.current], List.getElem?_eq_getElem (by omega)⟩
  have hne : self.current + 1 ≠ self.records.length := by omega
  simp [ReadBufferFromFileLog.nextThenPoll, ReadBufferFromFileLog.nextImpl_exposes self ha rec hrec,
    ReadBufferFromFileLog.poll, ReadBufferFromFileLog.hasMorePolledRecords, hne]

theorem ReadBufferFromFileLog.nextThenPoll_iterate {ρ : Type} (w : Nat) (ops : StreamOps ρ)
    (clock : List Nat) (self : ReadBufferFromFileLog ρ) (ha : self.allowed = true) :
    ∀ j, self.current + j < self.records.length →
      (Nat.iterate (ReadBufferFromFileLog.nextThenPoll w ops clock) j self).records = self.records
      ∧ (Nat.iterate (ReadBufferFromFileLog.nextThenPoll w ops clock) j self).current
          = self.current + j
      ∧ (Nat.iterate (ReadBufferFromFileLog.nextThenPoll w ops clock) j self).allowed = true
      ∧ (Nat.iterate (ReadBufferFromFileLog.nextThenPoll w ops clock) j self).file_infos
          = self.file_infos := by
  intro j
  induction j with
  | zero => intro _; exact ⟨rfl, rfl, ha, rfl⟩
  | succ j ih =>
    intro hj
    obtain ⟨i1, i2, i3, i4⟩ := ih (by omega)
    rw [Function.iterate_succ_apply']
    obtain ⟨s1, s2, s3, s4⟩ := ReadBufferFromFileLog.nextThenPoll_step w ops clock
      (Nat.iterate (ReadBufferFromFileLog.nextThenPoll w ops clock) j self) i3
      (by rw [i1, i2]; omega)
    exact ⟨s1.trans i1, by rw [s2, i2]; omega, s3, s4.trans i4⟩

/-! ## The poll and nextImpl state machine -/

/-- C17: with the cursor within the polled records, `nextImpl` returns true
exactly when `allowed` is set and the cursor is not at the end, and never
fails.  When it returns true it exposes the record under the cursor (its data
as the working buffer, its file name and its offset), moves the cursor on by
one and clears `allowed`, changing nothing else; when it returns false the
object is unchanged.  The cursor stays within the records over `nextImpl` and
`poll`, and the constructor leaves it there with `allowed` cleared.  After a `nextImpl` that returned true, and any calls of `poll` none
of which returned true, `nextImpl` returns false.  And from a set flag the
consumer's steps (`nextImpl`, then `poll`) leave the batch and the files as
they are while records remain, the `j`-th `nextImpl` exposing the `j`-th record
after the cursor. -/
theorem ReadBufferFromFileLog.nextImpl_poll_machine {ρ : Type} (w : Nat) (ops : StreamOps ρ)
    (self : ReadBufferFromFileLog ρ) (hcur : self.current ≤ self.records.length) :
    (self.nextImpl.1 = .ok true
        ↔ (self.allowed = true ∧ self.current ≠ self.records.length))
    ∧ (self.nextImpl.1 = .ok true ∨ self.nextImpl.1 = .ok false)
    ∧ (self.nextImpl.1 = .ok true →
        ∃ rec, self.records[self.current]? = some rec
          ∧ self.nextImpl.2
              = { self with
                  working_buffer := some rec.data, allowed := false,
                  current_file := rec.file_name, current_offset := rec.offset,
                  current := self.current + 1 })
    ∧ (self.nextImpl.1 = .ok false → self.nextImpl.2 = self)
    ∧ self.nextImpl.2.current ≤ self.nextImpl.2.records.length
    ∧ (∀ clock : List Nat,
        (self.poll w ops clock).2.current ≤ (self.poll w ops clock).2.records.length)
    ∧ (self.construct.current ≤ self.construct.records.length
        ∧ self.construct.allowed = false)
    ∧ (self.nextImpl.1 = .ok true →
        ∀ (clocks : List (List Nat)) (after : ReadBufferFromFileLog ρ),
          ReadBufferFromFileLog.afterFailedPolls w ops clocks self.nextImpl.2 = some after →
          after.nextImpl = (.ok false, after))
    ∧ (self.allowed = true →
        ∀ (clock : List Nat) (j : Nat), self.current + j < self.records.length →
          (Nat.iterate (ReadBufferFromFileLog.nextThenPoll w ops clock) j self).records
            = self.records
          ∧ (Nat.iterate (ReadBufferFromFileLog.nextThenPoll w ops clock) j self).file_infos
            = self.file_infos
          ∧ (Nat.iterate (ReadBufferFromFileLog.nextThenPoll w ops clock) j self).current
            = self.current + j
          ∧ ∃ rec, self.records[self.current + j]? = some rec
              ∧ (Nat.iterate (ReadBufferFromFileLog.nextThenPoll w ops clock) j self).nextImpl.1
                  = .ok true
              ∧ (Nat.iterate (ReadBufferFromFileLog.nextThenPoll w ops clock) j
                    self).nextImpl.2.working_buffer = some rec.data
              ∧ (Nat.iterate (ReadBufferFromFileLog.nextThenPoll w ops clock) j
                    self).nextImpl.2.current_file = rec.file_name
              ∧ (Nat.iterate (ReadBufferFromFileLog.nextThenPoll w ops clock) j
                    self).nextImpl.2.current_offset = rec.offset) := by
  -- the two cases of `nextImpl`
  have hcases : (self.allowed = true ∧ self.current ≠ self.records.length
        ∧ ∃ rec, self.records[self.current]? = some rec
          ∧ self.nextImpl
              = (.ok true,
                  { self with
                    working_buffer := some rec.data, allowed := false,
                    current_file := rec.file_name, current_offset := rec.offset,
                    current := self.current + 1 }))
      ∨ (¬ (self.allowed = true ∧ self.current ≠ self.records.length)
          ∧ self.nextImpl = (.ok false, self)) := by
    by_cases h : self.allowed = true ∧ self.current ≠ self.records.length
    · left
      obtain ⟨ha, hne⟩ := h
      obtain ⟨rec, hrec⟩ : ∃ rec, self.records[self.current]? = some rec :=
        ⟨self.records[self.current], List.getElem?_eq_getElem (by omega)⟩
      exact ⟨ha, hne, rec, hrec, ReadBufferFromFileLog.nextImpl_exposes self ha rec hrec⟩
    · right
      refine ⟨h, ?_⟩
      by_cases ha : self.allowed = true
      · have hend : self.current = self.records.length := by
          by_contra hne
          exact h ⟨ha, hne⟩
        simp [ReadBufferFromFileLog.nextImpl, ReadBufferFromFileLog.hasMorePolledRecords, ha,
          hend]
      · exact ReadBufferFromFileLog.nextImpl_not_allowed self (by simpa using ha)
  refine ⟨?_, ?_, ?_, ?_, ?_, ?_, ⟨Nat.le_refl _, rfl⟩, ?_, ?_⟩
  · rcases hcases with ⟨ha, hne, rec, _, hnext⟩ | ⟨hnot, hnext⟩
    · rw [hnext]
      exact ⟨fun _ => ⟨ha, hne⟩, fun _ => rfl⟩
    · rw [hnext]
      constructor
      · intro h
        simp at h
      · intro h
        exact absurd h hnot
  · rcases hcases with ⟨_, _, rec, _, hnext⟩ | ⟨_, hnext⟩
    · left; rw [hnext]
    · right; rw [hnext]
  · intro htrue
    rcases hcases with ⟨_, _, rec, hrec, hnext⟩ | ⟨_, hnext⟩
    · exact ⟨rec, hrec, by rw [hnext]⟩
    · rw [hnext] at htrue
      simp at htrue
  · intro hfalse
    rcases hcases with ⟨_, _, rec, _, hnext⟩ | ⟨_, hnext⟩
    · rw [hnext] at hfalse
      simp at hfalse
    · rw [hnext]
  · rcases hcases with ⟨_, hne, rec, _, hnext⟩ | ⟨_, hnext⟩
    · rw [hnext]
      show self.current + 1 ≤ self.records.length
      omega
    · rw [hnext]
      exact hcur
  · intro clock
    exact ReadBufferFromFileLog.poll_cursor w ops self clock hcur
  · intro htrue clocks after hafter
    have hfalse : self.nextImpl.2.allowed = false := by
      rcases hcases with ⟨_, _, rec, _, hnext⟩ | ⟨_, hnext⟩
      · rw [hnext]
      · rw [hnext] at htrue
        simp at htrue
    have := ReadBufferFromFileLog.afterFailedPolls_allowed w ops clocks _ _ hafter
    exact ReadBufferFromFileLog.nextImpl_not_allowed after (this.trans hfalse)
  · intro ha clock j hj
    obtain ⟨i1, i2, i3, i4⟩ :=
      ReadBufferFromFileLog.nextThenPoll_iterate w ops clock self ha j hj
    obtain ⟨rec, hrec⟩ : ∃ rec, self.records[self.current + j]? = some rec :=
      ⟨self.records[self.current + j], List.getElem?_eq_getElem hj⟩
    have hrec' : (Nat.iterate (ReadBufferFromFileLog.nextThenPoll w ops clock) j self).records[
        (Nat.iterate (ReadBufferFromFileLog.nextThenPoll w ops clock) j self).current]?
          = some rec := by
      rw [i1, i2]
      exact hrec
    have hnext := ReadBufferFromFileLog.nextImpl_exposes _ i3 rec hrec'
    refine ⟨i1, i4, i2, rec, hrec, ?_, ?_, ?_, ?_⟩ <;> rw [hnext]

/-- Witness of C17: after a poll of two records the consumer sees `x`, then
`yy`; a second `nextImpl` without a poll in between returns false. -/
theorem ReadBufferFromFileLog.nextImpl_poll_machine_witness :
    ((scenarioBuffer 2).poll 64 LineReader.ops []).2.current
        ≤ ((scenarioBuffer 2).poll 64 LineReader.ops []).2.records.length
    ∧ ((scenarioBuffer 2).poll 64 LineReader.ops []).2.nextImpl.1 = .ok true
    ∧ ((scenarioBuffer 2).poll 64 LineReader.ops []).2.nextImpl.2.working_buffer = some "x"
    ∧ ((scenarioBuffer 2).poll 64 LineReader.ops []).2.nextImpl.2.nextImpl.1 = .ok false
    ∧ (ReadBufferFromFileLog.nextThenPoll 64 LineReader.ops []
        ((scenarioBuffer 2).poll 64 LineReader.ops []).2).nextImpl.2.working_buffer
        = some "yy" := by
  have h := ReadBufferFromFileLog.nextImpl_poll_machine 64 LineReader.ops
    ((scenarioBuffer 2).poll 64 LineReader.ops []).2 (by decide)
  refine ⟨by decide, h.1.mpr ⟨rfl, by decide⟩, rfl, rfl, ?_⟩
  obtain ⟨_, _, _, rec, hrec, _, hbuf, _⟩ := h.2.2.2.2.2.2.2.2 rfl [] 1 (by decide)
  have hrec2 : rec = ⟨"a.log", 2, "yy"⟩ := by
    have : ((scenarioBuffer 2).poll 64 LineReader.ops []).2.records[
        ((scenarioBuffer 2).poll 64 LineReader.ops []).2.current + 1]?
          = some ⟨"a.log", 2, "yy"⟩ := rfl
    rw [this] at hrec
    exact (Option.some.inj hrec).symm
  rw [hrec2] at hbuf
  exact hbuf

end DB
